import Mathlib

/-!
Verification development for the mysql-cdc service
(`src/cdc_service/iceberg_watermark.py`, `cdc_worker.py`, `backfill.py`,
`iceberg_writer.py`).

The Python code is shallowly embedded: the Iceberg watermark table is
modelled as the (at most one) record stored under the single composite key
`(connection_name, server_id, schema, table)` that a worker uses, the sink
table as the list of appended records, and the binlog reader as the list of
events it would yield from a given start position.  Wall-clock fields
(`updated_at`) are not modelled; no claim depends on them.
-/

namespace MysqlCdc

/-- Python's `<` on `str` values, compared code point by code point
(lexicographic).  This is the comparison the service applies to binlog
file names. -/
def charListLtB : List Char → List Char → Bool
  | _, [] => false
  | [], _ :: _ => true
  | a :: as, b :: bs =>
    if a.toNat < b.toNat then true
    else if b.toNat < a.toNat then false
    else charListLtB as bs

/-- Python string `<` lifted to `String`. -/
def strLtB (a b : String) : Bool := charListLtB a.data b.data

/-- Python string `<=` (for a total order, `a <= b` iff `not (b < a)`). -/
def strLeB (a b : String) : Bool := !(strLtB b a)

/-- Every adjacent pair of the list is lexicographically non-decreasing. -/
def lexSortedB : List String → Bool
  | [] => true
  | [_] => true
  | a :: b :: rest => strLeB a b && lexSortedB (b :: rest)

/-- The binlog position order of the spec: `(f₁, p₁) ≤ (f₂, p₂)` iff
`f₁ < f₂` lexicographically, or `f₁ = f₂` and `p₁ ≤ p₂`. -/
def posLe (a b : String × Nat) : Prop :=
  strLtB a.1 b.1 = true ∨ (a.1 = b.1 ∧ a.2 ≤ b.2)

/-- Strict binlog position order. -/
def posLt (a b : String × Nat) : Prop :=
  strLtB a.1 b.1 = true ∨ (a.1 = b.1 ∧ a.2 < b.2)

instance (a b : String × Nat) : Decidable (posLe a b) := by
  unfold posLe; infer_instance

instance (a b : String × Nat) : Decidable (posLt a b) := by
  unfold posLt; infer_instance

/-! ## Watermark store (`iceberg_watermark.py`)

One row of the `cdc_metadata.watermarks` Iceberg table, restricted to the
single `(connection_name, server_id, schema, table)` key used by a worker.
The key columns and `updated_at` are omitted; `log_file` and `log_position`
are nullable columns.  The store holds at most one record per key (upsert
on the composite identifier), so its state is `Option WatermarkRecord`. -/

structure WatermarkRecord where
  log_file : Option String
  log_position : Option Nat
  backfill_complete : Bool
  deriving DecidableEq

/-- The `dict` returned by `IcebergWatermarkManager.get_watermark`. -/
structure WatermarkView where
  log_file : Option String
  log_pos : Option Nat
  backfill_complete : Bool
  deriving DecidableEq

/-- `IcebergWatermarkManager.get_watermark`: a zero view when no record
exists for the key, otherwise the record's fields. -/
def get_watermark (st : Option WatermarkRecord) : WatermarkView :=
  match st with
  | none => ⟨none, none, false⟩
  | some r => ⟨r.log_file, r.log_position, r.backfill_complete⟩

/-- `IcebergWatermarkManager.set_watermark`.  Returns the new store state
and the Python function's boolean result.  The Python guard tests only
`current["log_pos"] is not None` and then compares `log_file` against
`current["log_file"]`; every record the code writes has `log_position`
and `log_file` jointly null or jointly set, so the `some cpos, none`
match arm below is unreachable in runs (Python would raise a `TypeError`
there; the model falls through to the upsert). -/
def set_watermark (st : Option WatermarkRecord) (log_file : String)
    (log_pos : Nat) : Option WatermarkRecord × Bool :=
  if log_file = "" then (st, false)
  else
    let current := get_watermark st
    match current.log_pos, current.log_file with
    | some cpos, some cfile =>
      if strLtB log_file cfile then (st, false)
      else if log_file = cfile ∧ log_pos ≤ cpos then (st, false)
      else (some ⟨some log_file, some log_pos, current.backfill_complete⟩, true)
    | _, _ =>
      (some ⟨some log_file, some log_pos, current.backfill_complete⟩, true)

/-- `IcebergWatermarkManager.mark_backfill_complete`: upserts a record with
`backfill_complete := true` and `log_file`/`log_position` taken from the
current `get_watermark` view.  The Python source writes
`current.get("log_pos", 0)`, but `get_watermark` always puts the
`"log_pos"` key in its result (with value `None` when no record exists),
so the `0` default is dead code and a null position is written through
unchanged. -/
def mark_backfill_complete (st : Option WatermarkRecord) : WatermarkRecord :=
  let current := get_watermark st
  ⟨current.log_file, current.log_pos, true⟩

/-- `IcebergWatermarkManager.is_backfill_complete`. -/
def is_backfill_complete (st : Option WatermarkRecord) : Bool :=
  match st with
  | none => false
  | some r => r.backfill_complete

/-- One watermark-store operation on the worker's key (claim C2 ranges over
interleavings of these). -/
inductive WmOp where
  | set (log_file : String) (log_pos : Nat)
  | markComplete
  deriving DecidableEq

/-- Apply one store operation to the store state. -/
def applyWmOp (st : Option WatermarkRecord) : WmOp → Option WatermarkRecord
  | .set f p => (set_watermark st f p).1
  | .markComplete => some (mark_backfill_complete st)

/-- Apply a sequence of store operations. -/
def applyWmOps (st : Option WatermarkRecord) (ops : List WmOp) :
    Option WatermarkRecord :=
  ops.foldl applyWmOp st

/-- The stored position of a store state, when the record exists and its
position columns are non-null. -/
def storedPos (st : Option WatermarkRecord) : Option (String × Nat) :=
  match st with
  | some ⟨some f, some p, _⟩ => some (f, p)
  | _ => none

example : set_watermark (some ⟨some "mysql-bin.000005", some 900, false⟩)
    "mysql-bin.000005" 800 =
    (some ⟨some "mysql-bin.000005", some 900, false⟩, false) := by decide

example : set_watermark (some ⟨some "mysql-bin.000005", some 900, false⟩)
    "mysql-bin.000004" 9999 =
    (some ⟨some "mysql-bin.000005", some 900, false⟩, false) := by decide

example : set_watermark (some ⟨some "mysql-bin.000005", some 900, true⟩)
    "mysql-bin.000005" 901 =
    (some ⟨some "mysql-bin.000005", some 901, true⟩, true) := by decide

example : mark_backfill_complete none = ⟨none, none, true⟩ := by decide

/-! ## Sink writer (`iceberg_writer.py`)

`IcebergWriter.send_batch` validates and JSON-serializes every event of the
batch (the `for event in events` loop building `processed_events`), and only
then appends the whole batch to the Iceberg table in a single commit.  The
sink table is modelled as the list of appended records; the commit outcome
of each append is drawn from an oracle list of booleans (head = outcome of
the next attempted commit, exhausted oracle = success), standing for the
external object-store commit. -/

/-- Error kinds raised by the embedded Python paths.  `binlogGapped` stands
for the `RuntimeError` of `run_cdc_worker` when the watermark's or the stop
file is missing from `SHOW BINARY LOGS` (the spec's `BinlogGapped`);
`sinkWriteFailed` for a failed Iceberg append commit; `keyError`,
`validationError` and `typeError` for the per-event failures inside
`send_batch` (missing dict key, pydantic validation, `json.dumps` on an
unsupported type). -/
inductive PyError where
  | keyError
  | validationError
  | typeError
  | sinkWriteFailed
  | binlogGapped
  deriving DecidableEq

/-- A Python value appearing in a CDC `row` mapping (MySQL column value).
`pyFloat` carries the decimal rendering of the float; `pyDatetime` carries
the `isoformat()` rendering of the instant.  `pyBytes` and `pyDecimal` are
the MySQL-sourced types `json.dumps` cannot encode (the `DateTimeEncoder`
only handles `datetime`). -/
inductive PyVal where
  | pyInt (n : Int)
  | pyFloat (repr : String)
  | pyStr (s : String)
  | pyBool (b : Bool)
  | pyNone
  | pyDatetime (iso : String)
  | pyBytes (len : Nat)
  | pyDecimal (repr : String)
  deriving DecidableEq

/-- A row image: ordered mapping from column name to value. -/
def RowMap := List (String × PyVal)

instance : DecidableEq RowMap := by
  unfold RowMap; infer_instance

/-- Minimal JSON string quoting as performed by `json.dumps` (escapes the
backslash and the double quote; other characters of the names used by the
service pass through unchanged). -/
def jsonQuote (s : String) : String :=
  "\"" ++ String.mk (s.data.flatMap fun c =>
    if c = '\\' ∨ c = '\"' then ['\\', c] else [c]) ++ "\""

/-- `json.dumps` on one `row` value under `DateTimeEncoder`: datetimes are
ISO-8601 strings, `bytes` and `Decimal` raise `TypeError`. -/
def serializeVal : PyVal → Except PyError String
  | .pyInt n => .ok (toString n)
  | .pyFloat r => .ok r
  | .pyStr s => .ok (jsonQuote s)
  | .pyBool b => .ok (if b then "true" else "false")
  | .pyNone => .ok "null"
  | .pyDatetime iso => .ok (jsonQuote iso)
  | .pyBytes _ => .error .typeError
  | .pyDecimal _ => .error .typeError

/-- Serialization of the `row` dict entries in order, propagating the
first `TypeError`. -/
def serializeFields : RowMap → Except PyError (List String)
  | [] => .ok []
  | kv :: rest => do
    let v ← serializeVal kv.2
    let vs ← serializeFields rest
    pure ((jsonQuote kv.1 ++ ": " ++ v) :: vs)

/-- `json.dumps` of the whole `row` dict under `DateTimeEncoder`. -/
def serializeRow (row : RowMap) : Except PyError String := do
  let fields ← serializeFields row
  pure ("\x7b" ++ String.intercalate ", " fields ++ "\x7d")

/-- The event timestamp as found in the event dict: binlog events carry the
integer `binlogevent.timestamp` (Unix seconds), backfill events carry a
`datetime` (modelled as microseconds). -/
inductive TsVal where
  | tsInt (seconds : Nat)
  | tsDatetime (micros : Nat)
  deriving DecidableEq

/-- The event dict flowing from `cdc_worker.py` / `backfill.py` into
`IcebergWriter.send_batch`.  `none` models a `None` value (for
`event_type`, a missing key).  The `schema` and `table` keys of the Python
dict are not read by `send_batch` and are tracked separately where
needed. -/
structure CdcEventDict where
  event_type : Option String
  timestamp : Option TsVal
  log_file : Option String
  log_position : Option Nat
  row : Option RowMap
  deriving DecidableEq

/-- One record of the output Iceberg table (`event_type`, `timestamp` in
microseconds, `log_file`, `log_position`, JSON `payload`). -/
structure ProcessedRecord where
  event_type : String
  timestamp : Nat
  log_file : String
  log_position : Nat
  payload : String
  deriving DecidableEq

/-- The per-event body of the `send_batch` loop: fetch `event_type`
(`KeyError` when absent), convert an int/float timestamp via
`datetime.fromtimestamp` (seconds to microseconds), validate through the
pydantic `CdcEvent` model (a `None` timestamp or row is rejected), and
`json.dumps` the row.  `log_file` and `log_position` fall back to the
`.get` defaults `""` and `0`. -/
def tsToMicros : TsVal → Nat
  | .tsInt n => n * 1000000
  | .tsDatetime d => d

def processEvent (e : CdcEventDict) : Except PyError ProcessedRecord :=
  match e.event_type with
  | none => .error .keyError
  | some et =>
    match e.timestamp with
    | none => .error .validationError
    | some ts =>
      match e.row with
      | none => .error .validationError
      | some row =>
        match serializeRow row with
        | .error err => .error err
        | .ok payload =>
          .ok ⟨et, tsToMicros ts, e.log_file.getD "", e.log_position.getD 0,
            payload⟩

/-- The `for event in events` loop of `send_batch` building
`processed_events`: process each event in order, propagating the first
raised error. -/
def processEvents : List CdcEventDict → Except PyError (List ProcessedRecord)
  | [] => .ok []
  | e :: rest => do
    let r ← processEvent e
    let rs ← processEvents rest
    pure (r :: rs)

/-- `IcebergWriter.send_batch`.  Empty batches return immediately with
record count 0.  Otherwise every event is processed (any failure raises
before the table is touched), then the batch is appended in one commit
whose outcome is the oracle head.  Returns the sink, the remaining oracle
and the result. -/
def send_batch (sink : List ProcessedRecord) (oracle : List Bool)
    (events : List CdcEventDict) :
    List ProcessedRecord × List Bool × Except PyError Nat :=
  if events = [] then (sink, oracle, .ok 0)
  else
    match processEvents events with
    | .error e => (sink, oracle, .error e)
    | .ok processed =>
      match oracle with
      | [] => (sink ++ processed, [], .ok processed.length)
      | ok :: rest =>
        if ok then (sink ++ processed, rest, .ok processed.length)
        else (sink, rest, .error .sinkWriteFailed)

deriving instance DecidableEq for Except

example :
    processEvent ⟨some "insert", some (.tsInt 5), some "mysql-bin.000001",
      some 4, some [("id", .pyInt 1)]⟩ =
    .ok ⟨"insert", 5000000, "mysql-bin.000001", 4, "\x7b\"id\": 1\x7d"⟩ := by
  decide

example :
    processEvent ⟨some "insert", some (.tsInt 5), some "f", some 4,
      some [("b", .pyBytes 3)]⟩ = .error .typeError := by decide

/-! ## Binlog worker (`cdc_worker.py`)

`process_binlog_file` opens a `BinLogStreamReader` at `(log_file,
start_pos)` in non-blocking mode with `resume_stream=True`: the reader
yields every row event available on the server from that position up to
the server's current tail, crossing binlog file boundaries (the code reads
`stream.log_file` per event and compares it against `end_file`, and checks
`stream.log_file >= end_file` after the loop).  The reader is therefore
modelled as a function from the requested open position to the list of
events it yields, supplied by the `SourceModel`. -/

/-- Row-event kinds the reader is subscribed to (`only_events`). -/
inductive EventKind where
  | write
  | update
  | delete
  deriving DecidableEq

/-- One element of `binlogevent.rows`: the pre-image under `"values"`, the
post-image under `"after_values"` (present only for updates). -/
structure RawRow where
  values : Option RowMap
  after_values : Option RowMap
  deriving DecidableEq

/-- One event yielded by the binlog reader: its kind, the reader's
`stream.log_file` when it is yielded, `binlogevent.packet.log_pos`, the
event's Unix timestamp, and its rows. -/
structure BinlogEvent where
  kind : EventKind
  file : String
  packetLogPos : Nat
  timestamp : Nat
  rows : List RawRow
  deriving DecidableEq

/-- The row image the worker extracts: `values` for insert/delete,
`after_values` for update. -/
def rowToData (kind : EventKind) (r : RawRow) : Option RowMap :=
  match kind with
  | .write => r.values
  | .update => r.after_values
  | .delete => r.values

/-- The `event_type` string the worker assigns per event class. -/
def kindName : EventKind → String
  | .write => "insert"
  | .update => "update"
  | .delete => "delete"

/-- Mutable state shared by the run: the sink table contents, the
watermark record and the remaining append-commit outcomes. -/
structure RunCore where
  sink : List ProcessedRecord
  wm : Option WatermarkRecord
  oracle : List Bool
  deriving DecidableEq

/-- Observable operations of a run, in order.  `openStream` additionally
records the watermark-store state at open time (used to state claim C6);
`sendBatch` records the `send_batch` argument and whether the call
succeeded; `setWm`/`markComplete` record the watermark-store writes. -/
inductive TraceItem where
  | openStream (file : String) (startPos : Option Nat)
      (wmAtOpen : Option WatermarkRecord)
  | sendBatch (events : List CdcEventDict) (ok : Bool)
  | setWm (file : String) (pos : Nat)
  | markComplete
  deriving DecidableEq

/-- The stop test of `process_binlog_file`, line 88-91: active only when
both `end_file` and `end_pos` are truthy (non-empty string, nonzero), and
then `current_file > end_file or (current_file == end_file and current_pos
>= end_pos)`. -/
def stopCheck (ef : Option String) (ep : Option Nat) (cf : String)
    (cp : Nat) : Bool :=
  match ef, ep with
  | some f, some p =>
    if f = "" ∨ p = 0 then false
    else strLtB f cf || (decide (cf = f) && decide (p ≤ cp))
  | _, _ => false

/-- A batch-size flush inside the row loop (lines 122-127): when the batch
has reached `batch_size`, `send_batch` it and, only on success,
`set_watermark` to the last processed event's position, then clear the
batch.  Returns the new core, the emitted trace, the new batch and the
error if the send raised. -/
def flushFull (bs : Nat) (cf : String) (cp : Nat)
    (batch : List CdcEventDict) (c : RunCore) :
    RunCore × List TraceItem × List CdcEventDict × Option PyError :=
  if bs ≤ batch.length then
    match send_batch c.sink c.oracle batch with
    | (s', o', .error e) =>
      ({c with sink := s', oracle := o'}, [.sendBatch batch false], batch,
        some e)
    | (s', o', .ok _) =>
      (⟨s', (set_watermark c.wm cf cp).1, o'⟩,
        [.sendBatch batch true, .setWm cf cp], [], none)
  else (c, [], batch, none)

/-- The `for row in binlogevent.rows` loop (lines 94-127): build the event
dict, append it to the batch, remember the position, flush if full. -/
def pbfRowsLoop (bs : Nat) (cf : String) (cp : Nat) (kind : EventKind)
    (ts : Nat) :
    List RawRow → List CdcEventDict → Option (String × Nat) → RunCore →
    RunCore × List TraceItem × List CdcEventDict × Option (String × Nat) ×
      Option PyError
  | [], batch, last, c => (c, [], batch, last, none)
  | r :: rs, batch, last, c =>
    match flushFull bs cf cp (batch ++
        [⟨some (kindName kind), some (.tsInt ts), some cf, some cp,
          rowToData kind r⟩]) c with
    | (c', tr, batch'', some e) => (c', tr, batch'', some (cf, cp), some e)
    | (c', tr, batch'', none) =>
      match pbfRowsLoop bs cf cp kind ts rs batch'' (some (cf, cp)) c' with
      | (c2, tr2, b2, l2, e2) => (c2, tr ++ tr2, b2, l2, e2)

/-- Result of iterating the reader inside `process_binlog_file`:
`streamFile` is `stream.log_file` when the loop ends (last event read, or
the requested `log_file` when the stream was empty). -/
structure PbfEvOut where
  core : RunCore
  trace : List TraceItem
  batch : List CdcEventDict
  last : Option (String × Nat)
  streamFile : String
  err : Option PyError
  deriving DecidableEq

/-- The `for binlogevent in stream` loop (lines 83-127). -/
def pbfEventsLoop (bs : Nat) (ef : Option String) (ep : Option Nat) :
    List BinlogEvent → String → List CdcEventDict →
    Option (String × Nat) → RunCore → PbfEvOut
  | [], sf, batch, last, c => ⟨c, [], batch, last, sf, none⟩
  | ev :: rest, _sf, batch, last, c =>
    if stopCheck ef ep ev.file ev.packetLogPos then
      ⟨c, [], batch, last, ev.file, none⟩
    else
      match pbfRowsLoop bs ev.file ev.packetLogPos ev.kind ev.timestamp
          ev.rows batch last c with
      | (c', tr, b', l', some e) => ⟨c', tr, b', l', ev.file, some e⟩
      | (c', tr, b', l', none) =>
        match pbfEventsLoop bs ef ep rest ev.file b' l' c' with
        | ⟨c2, tr2, b2, l2, sf2, e2⟩ => ⟨c2, tr ++ tr2, b2, l2, sf2, e2⟩

/-- The flush after the loop (lines 129-133): send the remaining batch;
on success `set_watermark` only when both `last_log_file` and
`last_log_pos` are truthy. -/
def finalFlush (batch : List CdcEventDict) (last : Option (String × Nat))
    (c : RunCore) : RunCore × List TraceItem × Option PyError :=
  if batch = [] then (c, [], none)
  else
    match send_batch c.sink c.oracle batch with
    | (s', o', .error e) =>
      ({c with sink := s', oracle := o'}, [.sendBatch batch false], some e)
    | (s', o', .ok _) =>
      let c' : RunCore := ⟨s', c.wm, o'⟩
      match last with
      | some (lf, lp) =>
        if lf ≠ "" ∧ lp ≠ 0 then
          ({c' with wm := (set_watermark c'.wm lf lp).1},
            [.sendBatch batch true, .setWm lf lp], none)
        else (c', [.sendBatch batch true], none)
      | none => (c', [.sendBatch batch true], none)

/-- Result of one `process_binlog_file` call. -/
structure PassOut where
  core : RunCore
  trace : List TraceItem
  isComplete : Bool
  err : Option PyError
  deriving DecidableEq

/-- `process_binlog_file` (the stream it would read is passed in; the
`log_file`/`startPos` arguments identify the open position).  After the
loop and the final flush, returns `True` iff `end_file` is truthy and
`stream.log_file >= end_file` (line 136). -/
def process_binlog_file (bs : Nat) (log_file : String)
    (startPos : Option Nat) (ef : Option String) (ep : Option Nat)
    (stream : List BinlogEvent) (c : RunCore) : PassOut :=
  match pbfEventsLoop bs ef ep stream log_file [] none c with
  | ⟨c1, tr1, _, _, _, some e⟩ => ⟨c1, tr1, false, some e⟩
  | ⟨c1, tr1, batch1, last1, sf1, none⟩ =>
    match finalFlush batch1 last1 c1 with
    | (c2, tr2, some e) => ⟨c2, tr1 ++ tr2, false, some e⟩
    | (c2, tr2, none) =>
      ⟨c2, tr1 ++ tr2,
        (match ef with
          | some f => decide (f ≠ "") && strLeB f sf1
          | none => false), none⟩

/-- One row of `SHOW BINARY LOGS`. -/
structure BinlogRow where
  Log_name : String
  deriving DecidableEq

/-- `get_binlog_files` (lines 30-39): the `Log_name` column of
`SHOW BINARY LOGS`, in the order the server returned the rows.  The code
applies no sorting. -/
def get_binlog_files (rows : List BinlogRow) : List String :=
  rows.map (fun r => r.Log_name)

/-- The MySQL source as the worker observes it in one run: the
`SHOW MASTER STATUS` position, the `SHOW BINARY LOGS` rows, and the
events a reader opened at a given position yields. -/
structure SourceModel where
  stopFile : String
  stopPos : Nat
  binlogRows : List BinlogRow
  streamFrom : String → Option Nat → List BinlogEvent

/-- Result of `run_cdc_worker` or `backfill_table`. -/
structure RunOut where
  core : RunCore
  trace : List TraceItem
  err : Option PyError
  deriving DecidableEq

/-- The starting position chosen for a file by `run_cdc_worker` (lines
195-209): the watermark's position read at run start for the first file
(`i == start_idx`), else the re-read watermark's `log_position` when its
`log_file` equals this file, else 4 (past the binlog header). -/
def startPosFor (startPos : Option Nat) (isFirst : Bool)
    (wm : Option WatermarkRecord) (f : String) : Option Nat :=
  if isFirst then startPos
  else if (get_watermark wm).log_file = some f then (get_watermark wm).log_pos
  else some 4

/-- The `for i in range(start_idx, stop_idx + 1)` loop of `run_cdc_worker`
(lines 192-233), as recursion over `binlog_files[start_idx .. stop_idx]`.
The last element of that segment is `binlog_files[stop_idx]`, the only
call that receives `end_file`/`end_pos`. -/
def runFilesLoop (src : SourceModel) (bs : Nat) (startPos : Option Nat) :
    List String → Bool → RunCore → RunOut
  | [], _, c => ⟨c, [], none⟩
  | f :: rest, isFirst, c =>
    match process_binlog_file bs f (startPosFor startPos isFirst c.wm f)
        (if rest = [] then some src.stopFile else none)
        (if rest = [] then some src.stopPos else none)
        (src.streamFrom f (startPosFor startPos isFirst c.wm f)) c with
    | ⟨c1, tr1, _, some e⟩ =>
      ⟨c1, .openStream f (startPosFor startPos isFirst c.wm f) c.wm :: tr1,
        some e⟩
    | ⟨c1, tr1, isComplete, none⟩ =>
      if isComplete then
        ⟨c1, .openStream f (startPosFor startPos isFirst c.wm f) c.wm :: tr1,
          none⟩
      else
        match runFilesLoop src bs startPos rest false c1 with
        | ⟨c2, tr2, e2⟩ =>
          ⟨c2, .openStream f (startPosFor startPos isFirst c.wm f) c.wm ::
            (tr1 ++ tr2), e2⟩

/-- `run_cdc_worker` (lines 144-238).  With no (or empty) watermark file,
seed the watermark at the stop position and return.  Otherwise locate the
watermark file and the stop file in the binlog list (`list.index`; a miss
raises the `BinlogGapped` `RuntimeError`) and process the segment. -/
def run_cdc_worker (src : SourceModel) (bs : Nat) (c : RunCore) : RunOut :=
  let watermark := get_watermark c.wm
  let stop_file := src.stopFile
  let stop_pos := src.stopPos
  match watermark.log_file with
  | none =>
    ⟨{c with wm := (set_watermark c.wm stop_file stop_pos).1},
      [.setWm stop_file stop_pos], none⟩
  | some start_file =>
    if start_file = "" then
      ⟨{c with wm := (set_watermark c.wm stop_file stop_pos).1},
        [.setWm stop_file stop_pos], none⟩
    else
      let files := get_binlog_files src.binlogRows
      match files.findIdx? (fun x => decide (x = start_file)),
          files.findIdx? (fun x => decide (x = stop_file)) with
      | some si, some pi =>
        runFilesLoop src bs watermark.log_pos ((files.take (pi + 1)).drop si)
          true c
      | _, _ => ⟨c, [], some .binlogGapped⟩

/-! ## Backfill (`backfill.py`) -/

/-- The event dict `backfill_table` builds per scanned row (lines 46-54):
`event_type="backfill"`, the wall-clock `datetime` captured at dump start,
and the `SHOW MASTER STATUS` position captured at dump start. -/
def mkBackfillEvent (T : Nat) (lf : String) (lp : Nat) (row : RowMap) :
    CdcEventDict :=
  ⟨some "backfill", some (.tsDatetime T), some lf, some lp, some row⟩

/-- The `for row in cursor` loop of `backfill_table` (lines 44-61):
buffer each row's event, `send_batch` whenever the buffer reaches
`batch_size`.  No watermark write happens inside the loop. -/
def backfillRowsLoop (bs : Nat) (T : Nat) (lf : String) (lp : Nat) :
    List RowMap → List CdcEventDict → RunCore →
    RunCore × List TraceItem × List CdcEventDict × Option PyError
  | [], batch, c => (c, [], batch, none)
  | r :: rs, batch, c =>
    let batch' := batch ++ [mkBackfillEvent T lf lp r]
    if bs ≤ batch'.length then
      match send_batch c.sink c.oracle batch' with
      | (s', o', .error e) =>
        ({c with sink := s', oracle := o'}, [.sendBatch batch' false],
          batch', some e)
      | (s', o', .ok _) =>
        match backfillRowsLoop bs T lf lp rs []
            {c with sink := s', oracle := o'} with
        | (c2, tr2, b2, e2) => (c2, .sendBatch batch' true :: tr2, b2, e2)
    else backfillRowsLoop bs T lf lp rs batch' c

/-- `backfill_table` (lines 23-70): scan rows into batches, send the
remaining batch, then `set_watermark(F_stop, X_stop)` followed by
`mark_backfill_complete` — both skipped if anything raised earlier. -/
def backfill_table (bs : Nat) (T : Nat) (stopF : String) (stopP : Nat)
    (rows : List RowMap) (c : RunCore) : RunOut :=
  match backfillRowsLoop bs T stopF stopP rows [] c with
  | (c1, tr, _, some e) => ⟨c1, tr, some e⟩
  | (c1, tr, batch, none) =>
    if batch = [] then
      let c2 := {c1 with wm := (set_watermark c1.wm stopF stopP).1}
      let c3 := {c2 with wm := some (mark_backfill_complete c2.wm)}
      ⟨c3, tr ++ [.setWm stopF stopP, .markComplete], none⟩
    else
      match send_batch c1.sink c1.oracle batch with
      | (s', o', .error e) =>
        ⟨{c1 with sink := s', oracle := o'}, tr ++ [.sendBatch batch false],
          some e⟩
      | (s', o', .ok _) =>
        let c2 : RunCore := ⟨s', c1.wm, o'⟩
        let c3 := {c2 with wm := (set_watermark c2.wm stopF stopP).1}
        let c4 := {c3 with wm := some (mark_backfill_complete c3.wm)}
        ⟨c4, tr ++ [.sendBatch batch true, .setWm stopF stopP, .markComplete],
          none⟩

/-! ## Order lemmas for the Python string comparison -/

theorem charListLtB_irrefl : ∀ as : List Char, charListLtB as as = false := by
  intro as
  induction as with
  | nil => rfl
  | cons a tl ih => simp [charListLtB, ih]

theorem strLtB_irrefl (a : String) : strLtB a a = false :=
  charListLtB_irrefl a.data

theorem charListLtB_cons_iff (a b : Char) (as bs : List Char) :
    charListLtB (a :: as) (b :: bs) = true ↔
      a.toNat < b.toNat ∨ (a = b ∧ charListLtB as bs = true) := by
  by_cases h1 : a.toNat < b.toNat
  · simp [charListLtB, h1]
  · by_cases h2 : b.toNat < a.toNat
    · have hne : ¬a = b := by
        intro h; subst h; exact absurd h2 (lt_irrefl _)
      simp [charListLtB, h1, h2, hne]
    · have hab : a = b :=
        Char.eq_of_val_eq
          (UInt32.toNat.inj (Nat.le_antisymm (Nat.not_lt.mp h2) (Nat.not_lt.mp h1)))
      simp [charListLtB, h1, h2, hab]

theorem charListLtB_trichotomy : ∀ as bs : List Char,
    charListLtB as bs = true ∨ as = bs ∨ charListLtB bs as = true := by
  intro as
  induction as with
  | nil =>
    intro bs
    cases bs with
    | nil => exact Or.inr (Or.inl rfl)
    | cons b tl => exact Or.inl rfl
  | cons a tl ih =>
    intro bs
    cases bs with
    | nil => exact Or.inr (Or.inr rfl)
    | cons b tl' =>
      by_cases h1 : a.toNat < b.toNat
      · exact Or.inl ((charListLtB_cons_iff a b tl tl').mpr (Or.inl h1))
      · by_cases h2 : b.toNat < a.toNat
        · exact Or.inr (Or.inr ((charListLtB_cons_iff b a tl' tl).mpr (Or.inl h2)))
        · have hab : a = b :=
            Char.eq_of_val_eq
              (UInt32.toNat.inj
                (Nat.le_antisymm (Nat.not_lt.mp h2) (Nat.not_lt.mp h1)))
          subst hab
          rcases ih tl' with h | h | h
          · exact Or.inl ((charListLtB_cons_iff a a tl tl').mpr (Or.inr ⟨rfl, h⟩))
          · exact Or.inr (Or.inl (by rw [h]))
          · exact Or.inr (Or.inr ((charListLtB_cons_iff a a tl' tl).mpr (Or.inr ⟨rfl, h⟩)))

theorem strLtB_trichotomy (a b : String) :
    strLtB a b = true ∨ a = b ∨ strLtB b a = true := by
  cases a with
  | mk da =>
    cases b with
    | mk db =>
      rcases charListLtB_trichotomy da db with h | h | h
      · exact Or.inl h
      · exact Or.inr (Or.inl (congrArg String.mk h))
      · exact Or.inr (Or.inr h)

theorem charListLtB_trans : ∀ as bs cs : List Char,
    charListLtB as bs = true → charListLtB bs cs = true →
    charListLtB as cs = true := by
  intro as
  induction as with
  | nil =>
    intro bs cs h1 h2
    cases bs with
    | nil => exact h2
    | cons b tlb =>
      cases cs with
      | nil => simp [charListLtB] at h2
      | cons c tlc => rfl
  | cons a tla ih =>
    intro bs cs h1 h2
    cases bs with
    | nil => simp [charListLtB] at h1
    | cons b tlb =>
      cases cs with
      | nil => simp [charListLtB] at h2
      | cons c tlc =>
        rcases (charListLtB_cons_iff a b tla tlb).mp h1 with hlt1 | ⟨heq1, hrec1⟩
        · rcases (charListLtB_cons_iff b c tlb tlc).mp h2 with hlt2 | ⟨heq2, hrec2⟩
          · exact (charListLtB_cons_iff a c tla tlc).mpr
              (Or.inl (Nat.lt_trans hlt1 hlt2))
          · subst heq2
            exact (charListLtB_cons_iff a b tla tlc).mpr (Or.inl hlt1)
        · subst heq1
          rcases (charListLtB_cons_iff a c tlb tlc).mp h2 with hlt2 | ⟨heq2, hrec2⟩
          · exact (charListLtB_cons_iff a c tla tlc).mpr (Or.inl hlt2)
          · subst heq2
            exact (charListLtB_cons_iff a a tla tlc).mpr
              (Or.inr ⟨rfl, ih tlb tlc hrec1 hrec2⟩)

theorem strLtB_trans {a b c : String} (h1 : strLtB a b = true)
    (h2 : strLtB b c = true) : strLtB a c = true :=
  charListLtB_trans a.data b.data c.data h1 h2

theorem posLe_refl (P : String × Nat) : posLe P P :=
  Or.inr ⟨rfl, Nat.le_refl _⟩

theorem posLe_trans {P Q R : String × Nat} (h1 : posLe P Q) (h2 : posLe Q R) :
    posLe P R := by
  rcases h1 with h1 | ⟨e1, l1⟩
  · rcases h2 with h2 | ⟨e2, l2⟩
    · exact Or.inl (strLtB_trans h1 h2)
    · exact Or.inl (e2 ▸ h1)
  · rcases h2 with h2 | ⟨e2, l2⟩
    · exact Or.inl (e1 ▸ h2)
    · exact Or.inr ⟨e1.trans e2, Nat.le_trans l1 l2⟩

/-! ## Watermark-store lemmas -/

theorem set_watermark_empty_file (st : Option WatermarkRecord) (p : Nat) :
    set_watermark st "" p = (st, false) := by
  simp [set_watermark]

theorem set_watermark_reject (st : Option WatermarkRecord) (f : String)
    (p cp : Nat) (cf : String)
    (hcf : (get_watermark st).log_file = some cf)
    (hcp : (get_watermark st).log_pos = some cp)
    (hle : posLe (f, p) (cf, cp)) : set_watermark st f p = (st, false) := by
  by_cases hf : f = ""
  · simp [set_watermark, hf]
  · rcases hle with hlt | ⟨heq, hple⟩
    · simp only [set_watermark, if_neg hf, hcf, hcp]
      simp [hlt]
    · subst heq
      simp only [set_watermark, if_neg hf, hcf, hcp]
      simp [strLtB_irrefl, hple]

theorem set_watermark_accept (st : Option WatermarkRecord) (f : String)
    (p : Nat) (hf : f ≠ "")
    (hno : ∀ cf cp, (get_watermark st).log_file = some cf →
      (get_watermark st).log_pos = some cp → ¬posLe (f, p) (cf, cp)) :
    set_watermark st f p =
      (some ⟨some f, some p, (get_watermark st).backfill_complete⟩, true) := by
  cases hcp : (get_watermark st).log_pos with
  | none => simp only [set_watermark, if_neg hf, hcp]
  | some cp =>
    cases hcf : (get_watermark st).log_file with
    | none => simp only [set_watermark, if_neg hf, hcp, hcf]
    | some cf =>
      have hn := hno cf cp hcf hcp
      have h1 : strLtB f cf = false := by
        cases h : strLtB f cf with
        | false => rfl
        | true => exact absurd (Or.inl h) hn
      have h2 : ¬(f = cf ∧ p ≤ cp) := fun hh => hn (Or.inr hh)
      simp only [set_watermark, if_neg hf, hcp, hcf]
      simp [h1, h2]

theorem set_watermark_true_shape (st st' : Option WatermarkRecord)
    (f : String) (p : Nat) (h : set_watermark st f p = (st', true)) :
    st' = some ⟨some f, some p, (get_watermark st).backfill_complete⟩ ∧
      f ≠ "" := by
  by_cases hf : f = ""
  · rw [hf, set_watermark_empty_file] at h
    exact absurd (congrArg Prod.snd h) (by simp)
  · refine ⟨?_, hf⟩
    simp only [set_watermark, if_neg hf] at h
    rcases hcp : (get_watermark st).log_pos with _ | cp <;>
      rcases hcf : (get_watermark st).log_file with _ | cf <;>
        rw [hcp, hcf] at h <;> simp only [] at h
    · exact (Prod.mk.injEq _ _ _ _ ▸ h).1.symm ▸ rfl
    · exact (Prod.mk.injEq _ _ _ _ ▸ h).1.symm ▸ rfl
    · exact (Prod.mk.injEq _ _ _ _ ▸ h).1.symm ▸ rfl
    · by_cases hb1 : strLtB f cf = true
      · rw [if_pos hb1] at h
        exact absurd (congrArg Prod.snd h) (by simp)
      · rw [if_neg (by simpa using hb1)] at h
        by_cases hb2 : f = cf ∧ p ≤ cp
        · rw [if_pos hb2] at h
          exact absurd (congrArg Prod.snd h) (by simp)
        · rw [if_neg hb2] at h
          exact (Prod.mk.injEq _ _ _ _ ▸ h).1.symm ▸ rfl

theorem storedPos_inv (st : Option WatermarkRecord) (P : String × Nat)
    (h : storedPos st = some P) :
    ∃ b, st = some ⟨some P.1, some P.2, b⟩ := by
  cases st with
  | none => simp [storedPos] at h
  | some r =>
    rcases r with ⟨lf, lp, b⟩
    cases lf with
    | none => simp [storedPos] at h
    | some f =>
      cases lp with
      | none => simp [storedPos] at h
      | some p =>
        simp only [storedPos, Option.some.injEq] at h
        exact ⟨b, by rw [← h]⟩

/-- C1: `set_watermark(schema, table, log_file, log_pos)` rejects an empty
`log_file`; rejects (returning `false`, writing nothing) when a record with
a stored position exists and the new position is `≤` it in the Position
order; otherwise upserts the new position preserving `backfill_complete`
and returns `true`.  After a successful `set(P₁)`, a `set(P₂)` with
`P₂ ≤ P₁` leaves the stored record unchanged. -/
theorem C1_set_watermark_monotonic_upsert (st : Option WatermarkRecord)
    (f : String) (p : Nat) :
    (f = "" → set_watermark st f p = (st, false)) ∧
    (∀ cf cp, (get_watermark st).log_file = some cf →
      (get_watermark st).log_pos = some cp → posLe (f, p) (cf, cp) →
      set_watermark st f p = (st, false)) ∧
    (f ≠ "" →
      (∀ cf cp, (get_watermark st).log_file = some cf →
        (get_watermark st).log_pos = some cp → ¬posLe (f, p) (cf, cp)) →
      set_watermark st f p =
        (some ⟨some f, some p, (get_watermark st).backfill_complete⟩, true)) ∧
    (∀ r f2 p2, set_watermark st f p = (some r, true) →
      posLe (f2, p2) (f, p) →
      set_watermark (some r) f2 p2 = (some r, false)) := by
  refine ⟨?_, ?_, ?_, ?_⟩
  · intro h; rw [h]; exact set_watermark_empty_file st p
  · intro cf cp hcf hcp hle; exact set_watermark_reject st f p cp cf hcf hcp hle
  · intro hf hno; exact set_watermark_accept st f p hf hno
  · intro r f2 p2 heq hle
    obtain ⟨hr, hf⟩ := set_watermark_true_shape st (some r) f p heq
    obtain ⟨rfl⟩ := Option.some.inj hr.symm ▸ (rfl : some r = some r)
    have hr' : r = ⟨some f, some p, (get_watermark st).backfill_complete⟩ :=
      Option.some.inj hr
    exact set_watermark_reject (some r) f2 p2 p f (by rw [hr']; rfl)
      (by rw [hr']; rfl) hle

/-- C1 witness: concrete instances of all four conjuncts
(S5-style data: stored watermark `(mysql-bin.000005, 900)`). -/
theorem C1_set_watermark_monotonic_upsert_witness :
    set_watermark (some ⟨some "mysql-bin.000005", some 900, false⟩) "" 7 =
      (some ⟨some "mysql-bin.000005", some 900, false⟩, false) ∧
    set_watermark (some ⟨some "mysql-bin.000005", some 900, false⟩)
        "mysql-bin.000004" 9999 =
      (some ⟨some "mysql-bin.000005", some 900, false⟩, false) ∧
    set_watermark (some ⟨some "mysql-bin.000005", some 900, false⟩)
        "mysql-bin.000005" 901 =
      (some ⟨some "mysql-bin.000005", some 901, false⟩, true) ∧
    set_watermark (some ⟨some "mysql-bin.000005", some 901, false⟩)
        "mysql-bin.000005" 900 =
      (some ⟨some "mysql-bin.000005", some 901, false⟩, false) := by
  refine ⟨?_, ?_, ?_, ?_⟩
  · exact (C1_set_watermark_monotonic_upsert
      (some ⟨some "mysql-bin.000005", some 900, false⟩) "" 7).1 rfl
  · exact (C1_set_watermark_monotonic_upsert
      (some ⟨some "mysql-bin.000005", some 900, false⟩)
      "mysql-bin.000004" 9999).2.1 "mysql-bin.000005" 900 rfl rfl
      (Or.inl (by decide))
  · exact (C1_set_watermark_monotonic_upsert
      (some ⟨some "mysql-bin.000005", some 900, false⟩)
      "mysql-bin.000005" 901).2.2.1 (by decide)
      (by intro cf cp hcf hcp hle
          simp only [get_watermark, Option.some.injEq] at hcf hcp
          subst hcf; subst hcp
          rcases hle with h | ⟨_, h⟩
          · exact absurd h (by decide)
          · exact absurd h (by decide))
  · exact (C1_set_watermark_monotonic_upsert
      (some ⟨some "mysql-bin.000005", some 900, false⟩)
      "mysql-bin.000005" 901).2.2.2
      ⟨some "mysql-bin.000005", some 901, false⟩ "mysql-bin.000005" 900
      (by decide) (Or.inr ⟨rfl, by decide⟩)

theorem applyWmOp_mono (st : Option WatermarkRecord) (op : WmOp)
    (P : String × Nat) (h : storedPos st = some P) :
    ∃ Q, storedPos (applyWmOp st op) = some Q ∧ posLe P Q := by
  obtain ⟨b, hst⟩ := storedPos_inv st P h
  cases op with
  | markComplete =>
    refine ⟨P, ?_, posLe_refl P⟩
    subst hst
    simp [applyWmOp, mark_backfill_complete, get_watermark, storedPos]
  | set f p =>
    by_cases hf : f = ""
    · subst hf
      rw [applyWmOp, set_watermark_empty_file]
      exact ⟨P, h, posLe_refl P⟩
    · subst hst
      by_cases hb1 : strLtB f P.1 = true
      · refine ⟨P, ?_, posLe_refl P⟩
        rw [applyWmOp,
          set_watermark_reject (some ⟨some P.1, some P.2, b⟩) f p P.2 P.1
            rfl rfl (Or.inl hb1)]
        exact h
      · by_cases hb2 : f = P.1 ∧ p ≤ P.2
        · refine ⟨P, ?_, posLe_refl P⟩
          rw [applyWmOp,
            set_watermark_reject (some ⟨some P.1, some P.2, b⟩) f p P.2 P.1
              rfl rfl (Or.inr hb2)]
          exact h
        · refine ⟨(f, p), ?_, ?_⟩
          · rw [applyWmOp, set_watermark_accept _ f p hf ?_]
            · simp [storedPos]
            · intro cf cp hcf hcp hle
              simp only [get_watermark, Option.some.injEq] at hcf hcp
              subst hcf; subst hcp
              rcases hle with h1 | h2
              · exact hb1 h1
              · exact hb2 h2
          · rcases strLtB_trichotomy P.1 f with h1 | h1 | h1
            · exact Or.inl h1
            · subst h1
              refine Or.inr ⟨rfl, ?_⟩
              rcases Nat.lt_or_ge P.2 p with h2 | h2
              · exact Nat.le_of_lt h2
              · exact absurd ⟨rfl, h2⟩ hb2
            · exact absurd h1 hb1

/-- C2: over any sequence of watermark-store operations (interleaved
`set_watermark` and `mark_backfill_complete` calls on the worker's key),
the stored `(log_file, log_position)` never decreases under the Position
order, and any single `set_watermark` whose position is `≤` the stored one
leaves the store state unchanged. -/
theorem C2_watermark_monotonic (st : Option WatermarkRecord)
    (ops : List WmOp) (P : String × Nat) (h : storedPos st = some P) :
    (∃ Q, storedPos (applyWmOps st ops) = some Q ∧ posLe P Q) ∧
    (∀ f p, posLe (f, p) P → applyWmOp st (.set f p) = st) := by
  constructor
  · induction ops generalizing st P with
    | nil => exact ⟨P, h, posLe_refl P⟩
    | cons op rest ih =>
      obtain ⟨Q1, hQ1, hle1⟩ := applyWmOp_mono st op P h
      obtain ⟨Q2, hQ2, hle2⟩ := ih (applyWmOp st op) Q1 hQ1
      exact ⟨Q2, hQ2, posLe_trans hle1 hle2⟩
  · intro f p hle
    obtain ⟨b, hst⟩ := storedPos_inv st P h
    subst hst
    rw [applyWmOp,
      set_watermark_reject (some ⟨some P.1, some P.2, b⟩) f p P.2 P.1
        rfl rfl hle]

/-- C2 witness: from stored position `(mysql-bin.000002, 50)`, a run of
operations (a regressing set, a completion mark, an advancing set) keeps
the stored position non-decreasing, and a regressing set is a no-op. -/
theorem C2_watermark_monotonic_witness :
    (∃ Q, storedPos (applyWmOps (some ⟨some "mysql-bin.000002", some 50, false⟩)
      [.set "mysql-bin.000001" 990, .markComplete, .set "mysql-bin.000002" 60])
        = some Q ∧ posLe ("mysql-bin.000002", 50) Q) ∧
    applyWmOp (some ⟨some "mysql-bin.000002", some 50, false⟩)
      (.set "mysql-bin.000002" 50) =
      some ⟨some "mysql-bin.000002", some 50, false⟩ := by
  have h := C2_watermark_monotonic
    (some ⟨some "mysql-bin.000002", some 50, false⟩)
    [.set "mysql-bin.000001" 990, .markComplete, .set "mysql-bin.000002" 60]
    ("mysql-bin.000002", 50) rfl
  exact ⟨h.1, h.2 "mysql-bin.000002" 50 (Or.inr ⟨rfl, Nat.le_refl _⟩)⟩

/-- C8 counterexample: with no watermark record present,
`mark_backfill_complete` writes a record whose `log_position` is null
(`None`), not `0` as the claim states — the Python default in
`current.get("log_pos", 0)` is dead because `get_watermark` always
includes the `"log_pos"` key. -/
theorem C8_counterexample :
    mark_backfill_complete none = ⟨none, none, true⟩ ∧
      (mark_backfill_complete none).log_position ≠ some 0 := by
  exact ⟨rfl, by decide⟩

/-- C8 (amended): `mark_backfill_complete` writes `backfill_complete =
true` while carrying over the stored `log_file` and `log_position`
verbatim — null (not `0`) when no record exists — and changes no other
modelled field. -/
theorem C8_mark_backfill_complete_frame (st : Option WatermarkRecord) :
    (∀ r, st = some r →
      mark_backfill_complete st = ⟨r.log_file, r.log_position, true⟩) ∧
    (st = none → mark_backfill_complete st = ⟨none, none, true⟩) := by
  constructor
  · intro r hr; subst hr; rfl
  · intro hr; subst hr; rfl

/-- C8 witness: both branches at concrete stores. -/
theorem C8_mark_backfill_complete_frame_witness :
    mark_backfill_complete (some ⟨some "mysql-bin.000007", some 42, false⟩) =
      ⟨some "mysql-bin.000007", some 42, true⟩ ∧
    mark_backfill_complete none = ⟨none, none, true⟩ := by
  exact ⟨(C8_mark_backfill_complete_frame
      (some ⟨some "mysql-bin.000007", some 42, false⟩)).1
      ⟨some "mysql-bin.000007", some 42, false⟩ rfl,
    (C8_mark_backfill_complete_frame none).2 rfl⟩

/-! ## C9: `get_binlog_files` ordering -/

/-- C9 counterexample: `get_binlog_files` applies no sorting — on a server
reply listing `mysql-bin.000002` before `mysql-bin.000001` the returned
sequence is not lexicographically sorted, contradicting the claim that the
result is sorted for every source state. -/
theorem C9_counterexample :
    lexSortedB (get_binlog_files
      [⟨"mysql-bin.000002"⟩, ⟨"mysql-bin.000001"⟩]) = false := by
  decide

/-- C9 (amended): `get_binlog_files` returns the `Log_name` column of
`SHOW BINARY LOGS` in exactly the server-reported order, applying no
sorting of its own; consequently the result is lexicographically sorted
(each adjacent pair non-decreasing) precisely when the server's list
already is. -/
theorem C9_get_binlog_files_order (rows : List BinlogRow) :
    get_binlog_files rows = rows.map (fun r => r.Log_name) ∧
    (lexSortedB (rows.map (fun r => r.Log_name)) = true →
      lexSortedB (get_binlog_files rows) = true) :=
  ⟨rfl, fun h => h⟩

/-- C9 witness: a sorted server reply stays sorted through
`get_binlog_files`. -/
theorem C9_get_binlog_files_order_witness :
    get_binlog_files [⟨"mysql-bin.000001"⟩, ⟨"mysql-bin.000002"⟩] =
      ["mysql-bin.000001", "mysql-bin.000002"] ∧
    lexSortedB (get_binlog_files
      [⟨"mysql-bin.000001"⟩, ⟨"mysql-bin.000002"⟩]) = true := by
  have h := C9_get_binlog_files_order
    [⟨"mysql-bin.000001"⟩, ⟨"mysql-bin.000002"⟩]
  exact ⟨h.1, h.2 (by decide)⟩

/-! ## C10: `send_batch` validates the whole batch before the append -/

theorem processEvents_error {events : List CdcEventDict}
    {e : CdcEventDict} {err : PyError} (hmem : e ∈ events)
    (herr : processEvent e = .error err) :
    ∃ err', processEvents events = .error err' := by
  induction events with
  | nil => cases hmem
  | cons a tl ih =>
    cases hae : processEvent a with
    | error e1 => exact ⟨e1, by simp only [processEvents, hae]; rfl⟩
    | ok b =>
      rcases List.mem_cons.mp hmem with rfl | htl
      · rw [hae] at herr; cases herr
      · obtain ⟨err', htl'⟩ := ih htl
        refine ⟨err', ?_⟩
        simp only [processEvents, hae, htl']
        rfl

/-- C10: `send_batch` runs per-event validation and JSON serialization of
every event of a non-empty batch before the single table append.  If some
event fails (e.g. an unserializable row value), `send_batch` raises with
the sink contents *and* the commit oracle unchanged — the append commit is
never attempted, so the sink is left exactly as it was.  When every event
processes successfully, the whole processed batch is appended by one
commit (shown with the all-success oracle). -/
theorem C10_send_batch_all_or_nothing (sink : List ProcessedRecord)
    (oracle : List Bool) (events : List CdcEventDict) :
    (∀ e ∈ events, ∀ err, processEvent e = .error err →
      ∃ err', send_batch sink oracle events = (sink, oracle, .error err')) ∧
    (∀ processed, events ≠ [] → processEvents events = .ok processed →
      send_batch sink [] events =
        (sink ++ processed, [], .ok processed.length)) := by
  constructor
  · intro e hmem err herr
    obtain ⟨err', hall⟩ := processEvents_error hmem herr
    have hne : events ≠ [] := by
      intro h; subst h; cases hmem
    exact ⟨err', by simp [send_batch, hne, hall]⟩
  · intro processed hne hall
    simp [send_batch, hne, hall]

/-- C10 witness: a batch whose second event has an unserializable `bytes`
row value makes `send_batch` raise with the sink untouched; the same batch
without the bad event appends in full. -/
theorem C10_send_batch_all_or_nothing_witness :
    (∃ err', send_batch [] [true]
      [⟨some "insert", some (.tsInt 1), some "mysql-bin.000001", some 4,
          some [("id", .pyInt 1)]⟩,
        ⟨some "insert", some (.tsInt 1), some "mysql-bin.000001", some 8,
          some [("blob", .pyBytes 8)]⟩] = ([], [true], .error err')) ∧
    send_batch [] []
      [⟨some "insert", some (.tsInt 1), some "mysql-bin.000001", some 4,
          some [("id", .pyInt 1)]⟩] =
      ([⟨"insert", 1000000, "mysql-bin.000001", 4, "\x7b\"id\": 1\x7d"⟩], [],
        .ok 1) := by
  constructor
  · exact (C10_send_batch_all_or_nothing [] [true]
      [⟨some "insert", some (.tsInt 1), some "mysql-bin.000001", some 4,
          some [("id", .pyInt 1)]⟩,
        ⟨some "insert", some (.tsInt 1), some "mysql-bin.000001", some 8,
          some [("blob", .pyBytes 8)]⟩]).1
      ⟨some "insert", some (.tsInt 1), some "mysql-bin.000001", some 8,
        some [("blob", .pyBytes 8)]⟩ (by simp) .typeError (by decide)
  · exact (C10_send_batch_all_or_nothing [] []
      [⟨some "insert", some (.tsInt 1), some "mysql-bin.000001", some 4,
          some [("id", .pyInt 1)]⟩]).2
      [⟨"insert", 1000000, "mysql-bin.000001", 4, "\x7b\"id\": 1\x7d"⟩]
      (by simp) (by decide)

/-! ## Characterization equations for the batching primitives -/

theorem send_batch_nil (sink : List ProcessedRecord) (oracle : List Bool) :
    send_batch sink oracle [] = (sink, oracle, .ok 0) := by
  simp [send_batch]

theorem send_batch_proc_err {events : List CdcEventDict} {e : PyError}
    (sink : List ProcessedRecord) (oracle : List Bool) (hne : events ≠ [])
    (hpe : processEvents events = .error e) :
    send_batch sink oracle events = (sink, oracle, .error e) := by
  simp [send_batch, hne, hpe]

theorem send_batch_ok_none {events : List CdcEventDict}
    {processed : List ProcessedRecord} (sink : List ProcessedRecord)
    (hne : events ≠ []) (hpe : processEvents events = .ok processed) :
    send_batch sink [] events = (sink ++ processed, [], .ok processed.length) := by
  simp [send_batch, hne, hpe]

theorem send_batch_ok_true {events : List CdcEventDict}
    {processed : List ProcessedRecord} (sink : List ProcessedRecord)
    (rest : List Bool) (hne : events ≠ [])
    (hpe : processEvents events = .ok processed) :
    send_batch sink (true :: rest) events =
      (sink ++ processed, rest, .ok processed.length) := by
  simp [send_batch, hne, hpe]

theorem send_batch_ok_false {events : List CdcEventDict}
    {processed : List ProcessedRecord} (sink : List ProcessedRecord)
    (rest : List Bool) (hne : events ≠ [])
    (hpe : processEvents events = .ok processed) :
    send_batch sink (false :: rest) events =
      (sink, rest, .error .sinkWriteFailed) := by
  simp [send_batch, hne, hpe]

theorem flushFull_not_full {bs : Nat} {batch : List CdcEventDict}
    (cf : String) (cp : Nat) (c : RunCore) (h : ¬ bs ≤ batch.length) :
    flushFull bs cf cp batch c = (c, [], batch, none) := by
  simp [flushFull, h]

theorem flushFull_full_err {bs : Nat} {batch : List CdcEventDict}
    {s' : List ProcessedRecord} {o' : List Bool} {e : PyError}
    (cf : String) (cp : Nat) (c : RunCore) (h : bs ≤ batch.length)
    (hsb : send_batch c.sink c.oracle batch = (s', o', .error e)) :
    flushFull bs cf cp batch c =
      ({c with sink := s', oracle := o'}, [.sendBatch batch false], batch,
        some e) := by
  simp [flushFull, h, hsb]

theorem flushFull_full_ok {bs : Nat} {batch : List CdcEventDict}
    {s' : List ProcessedRecord} {o' : List Bool} {n : Nat}
    (cf : String) (cp : Nat) (c : RunCore) (h : bs ≤ batch.length)
    (hsb : send_batch c.sink c.oracle batch = (s', o', .ok n)) :
    flushFull bs cf cp batch c =
      (⟨s', (set_watermark c.wm cf cp).1, o'⟩,
        [.sendBatch batch true, .setWm cf cp], [], none) := by
  simp [flushFull, h, hsb]

/-! ## C3: strict stop boundary -/

/-- An event dict whose recorded binlog position is strictly below `stop`. -/
def evBelow (stop : String × Nat) (ev : CdcEventDict) : Prop :=
  ∃ f p, ev.log_file = some f ∧ ev.log_position = some p ∧
    posLt (f, p) stop

theorem stopCheck_false_posLt {f : String} {p : Nat} {cf : String} {cp : Nat}
    (hf : f ≠ "") (hp : p ≠ 0)
    (h : stopCheck (some f) (some p) cf cp = false) :
    posLt (cf, cp) (f, p) := by
  have hcond : ¬(f = "" ∨ p = 0) := by
    intro hc; rcases hc with hc | hc
    · exact hf hc
    · exact hp hc
  rw [stopCheck, if_neg hcond, Bool.or_eq_false_iff] at h
  obtain ⟨h1, h2⟩ := h
  rcases strLtB_trichotomy cf f with ht | ht | ht
  · exact Or.inl ht
  · subst ht
    rw [Bool.and_eq_false_iff] at h2
    rcases h2 with h2 | h2
    · simp at h2
    · refine Or.inr ⟨rfl, ?_⟩
      have : ¬ p ≤ cp := by simpa using h2
      omega
  · exact absurd ht (by simp [h1])

theorem flushFull_below (stop : String × Nat) {bs : Nat} {cf : String}
    {cp : Nat} {batch : List CdcEventDict} {c : RunCore} {c' : RunCore}
    {tr : List TraceItem} {b' : List CdcEventDict} {e' : Option PyError}
    (heq : flushFull bs cf cp batch c = (c', tr, b', e'))
    (hb : ∀ ev ∈ batch, evBelow stop ev) :
    (∀ evs ok, TraceItem.sendBatch evs ok ∈ tr → ∀ ev ∈ evs, evBelow stop ev) ∧
    (∀ ev ∈ b', evBelow stop ev) := by
  by_cases hfull : bs ≤ batch.length
  · rcases hsb : send_batch c.sink c.oracle batch with ⟨s2, o2, res⟩
    cases res with
    | error e =>
      rw [flushFull_full_err cf cp c hfull hsb, Prod.mk.injEq, Prod.mk.injEq,
        Prod.mk.injEq] at heq
      obtain ⟨rfl, rfl, rfl, rfl⟩ := heq
      constructor
      · intro evs ok hmem ev hev
        simp only [List.mem_singleton] at hmem
        injection hmem with hevs hok
        exact hb ev (hevs ▸ hev)
      · exact hb
    | ok n =>
      rw [flushFull_full_ok cf cp c hfull hsb, Prod.mk.injEq, Prod.mk.injEq,
        Prod.mk.injEq] at heq
      obtain ⟨rfl, rfl, rfl, rfl⟩ := heq
      constructor
      · intro evs ok hmem ev hev
        simp only [List.mem_cons, List.not_mem_nil, or_false] at hmem
        rcases hmem with hmem | hmem
        · injection hmem with hevs hok
          exact hb ev (hevs ▸ hev)
        · cases hmem
      · intro ev hev; cases hev
  · rw [flushFull_not_full cf cp c hfull] at heq
    simp only [Prod.mk.injEq] at heq
    obtain ⟨rfl, rfl, rfl, rfl⟩ := heq
    exact ⟨fun evs ok hmem => absurd hmem (List.not_mem_nil _), hb⟩

theorem pbfRowsLoop_nil (bs : Nat) (cf : String) (cp : Nat)
    (kind : EventKind) (ts : Nat) (batch : List CdcEventDict)
    (last : Option (String × Nat)) (c : RunCore) :
    pbfRowsLoop bs cf cp kind ts [] batch last c = (c, [], batch, last, none) :=
  rfl

theorem pbfRowsLoop_cons_err {bs : Nat} {cf : String} {cp : Nat}
    {kind : EventKind} {ts : Nat} {r : RawRow} {rs : List RawRow}
    {batch : List CdcEventDict} {last : Option (String × Nat)} {c : RunCore}
    {c1 : RunCore} {tr1 : List TraceItem} {b1 : List CdcEventDict}
    {e : PyError}
    (hff : flushFull bs cf cp (batch ++
      [⟨some (kindName kind), some (.tsInt ts), some cf, some cp,
        rowToData kind r⟩]) c = (c1, tr1, b1, some e)) :
    pbfRowsLoop bs cf cp kind ts (r :: rs) batch last c =
      (c1, tr1, b1, some (cf, cp), some e) := by
  simp [pbfRowsLoop, hff]

theorem pbfRowsLoop_cons_ok {bs : Nat} {cf : String} {cp : Nat}
    {kind : EventKind} {ts : Nat} {r : RawRow} {rs : List RawRow}
    {batch : List CdcEventDict} {last : Option (String × Nat)} {c : RunCore}
    {c1 : RunCore} {tr1 : List TraceItem} {b1 : List CdcEventDict}
    {c2 : RunCore} {tr2 : List TraceItem} {b2 : List CdcEventDict}
    {l2 : Option (String × Nat)} {e2 : Option PyError}
    (hff : flushFull bs cf cp (batch ++
      [⟨some (kindName kind), some (.tsInt ts), some cf, some cp,
        rowToData kind r⟩]) c = (c1, tr1, b1, none))
    (hrec : pbfRowsLoop bs cf cp kind ts rs b1 (some (cf, cp)) c1 =
      (c2, tr2, b2, l2, e2)) :
    pbfRowsLoop bs cf cp kind ts (r :: rs) batch last c =
      (c2, tr1 ++ tr2, b2, l2, e2) := by
  simp [pbfRowsLoop, hff, hrec]

theorem pbfRowsLoop_below (stop : String × Nat) {bs : Nat} {cf : String}
    {cp : Nat} {kind : EventKind} {ts : Nat} (hlt : posLt (cf, cp) stop) :
    ∀ (rows : List RawRow) (batch : List CdcEventDict)
      (last : Option (String × Nat)) (c : RunCore) {c' : RunCore}
      {tr : List TraceItem} {b' : List CdcEventDict}
      {l' : Option (String × Nat)} {e' : Option PyError},
      pbfRowsLoop bs cf cp kind ts rows batch last c = (c', tr, b', l', e') →
      (∀ ev ∈ batch, evBelow stop ev) →
      (∀ evs ok, TraceItem.sendBatch evs ok ∈ tr →
        ∀ ev ∈ evs, evBelow stop ev) ∧
      (∀ ev ∈ b', evBelow stop ev) := by
  intro rows
  induction rows with
  | nil =>
    intro batch last c c' tr b' l' e' heq hb
    rw [pbfRowsLoop_nil] at heq
    simp only [Prod.mk.injEq] at heq
    obtain ⟨rfl, rfl, rfl, rfl, rfl⟩ := heq
    exact ⟨fun evs ok hmem => absurd hmem (List.not_mem_nil _), hb⟩
  | cons r rs ih =>
    intro batch last c c' tr b' l' e' heq hb
    have hbnew : ∀ ev ∈ batch ++
        [(⟨some (kindName kind), some (.tsInt ts), some cf, some cp,
          rowToData kind r⟩ : CdcEventDict)], evBelow stop ev := by
      intro ev hev
      rcases List.mem_append.mp hev with hev | hev
      · exact hb ev hev
      · simp only [List.mem_singleton] at hev
        subst hev
        exact ⟨cf, cp, rfl, rfl, hlt⟩
    rcases hff : flushFull bs cf cp (batch ++
        [(⟨some (kindName kind), some (.tsInt ts), some cf, some cp,
          rowToData kind r⟩ : CdcEventDict)]) c with ⟨c1, tr1, b1, e1⟩
    obtain ⟨h1, h2⟩ := flushFull_below stop hff hbnew
    cases e1 with
    | some e =>
      rw [pbfRowsLoop_cons_err hff] at heq
      simp only [Prod.mk.injEq] at heq
      obtain ⟨rfl, rfl, rfl, rfl, rfl⟩ := heq
      exact ⟨h1, h2⟩
    | none =>
      rcases hrec : pbfRowsLoop bs cf cp kind ts rs b1 (some (cf, cp)) c1
        with ⟨c2, tr2, b2, l2, e2⟩
      rw [pbfRowsLoop_cons_ok hff hrec] at heq
      simp only [Prod.mk.injEq] at heq
      obtain ⟨rfl, rfl, rfl, rfl, rfl⟩ := heq
      obtain ⟨h3, h4⟩ := ih b1 (some (cf, cp)) c1 hrec h2
      refine ⟨?_, h4⟩
      intro evs ok hmem ev hev
      rcases List.mem_append.mp hmem with hmem | hmem
      · exact h1 evs ok hmem ev hev
      · exact h3 evs ok hmem ev hev

theorem pbfEventsLoop_nil (bs : Nat) (ef : Option String) (ep : Option Nat)
    (sf : String) (batch : List CdcEventDict) (last : Option (String × Nat))
    (c : RunCore) :
    pbfEventsLoop bs ef ep [] sf batch last c = ⟨c, [], batch, last, sf, none⟩ :=
  rfl

theorem pbfEventsLoop_cons_stop {bs : Nat} {ef : Option String}
    {ep : Option Nat} {ev : BinlogEvent} {rest : List BinlogEvent}
    {sf : String} {batch : List CdcEventDict} {last : Option (String × Nat)}
    {c : RunCore} (hsc : stopCheck ef ep ev.file ev.packetLogPos = true) :
    pbfEventsLoop bs ef ep (ev :: rest) sf batch last c =
      ⟨c, [], batch, last, ev.file, none⟩ := by
  simp [pbfEventsLoop, hsc]

theorem pbfEventsLoop_cons_err {bs : Nat} {ef : Option String}
    {ep : Option Nat} {ev : BinlogEvent} {rest : List BinlogEvent}
    {sf : String} {batch : List CdcEventDict} {last : Option (String × Nat)}
    {c : RunCore} {c1 : RunCore} {tr1 : List TraceItem}
    {b1 : List CdcEventDict} {l1 : Option (String × Nat)} {e : PyError}
    (hsc : stopCheck ef ep ev.file ev.packetLogPos = false)
    (hrl : pbfRowsLoop bs ev.file ev.packetLogPos ev.kind ev.timestamp
      ev.rows batch last c = (c1, tr1, b1, l1, some e)) :
    pbfEventsLoop bs ef ep (ev :: rest) sf batch last c =
      ⟨c1, tr1, b1, l1, ev.file, some e⟩ := by
  simp [pbfEventsLoop, hsc, hrl]

theorem pbfEventsLoop_cons_ok {bs : Nat} {ef : Option String}
    {ep : Option Nat} {ev : BinlogEvent} {rest : List BinlogEvent}
    {sf : String} {batch : List CdcEventDict} {last : Option (String × Nat)}
    {c : RunCore} {c1 : RunCore} {tr1 : List TraceItem}
    {b1 : List CdcEventDict} {l1 : Option (String × Nat)} {c2 : RunCore}
    {tr2 : List TraceItem} {b2 : List CdcEventDict}
    {l2 : Option (String × Nat)} {sf2 : String} {e2 : Option PyError}
    (hsc : stopCheck ef ep ev.file ev.packetLogPos = false)
    (hrl : pbfRowsLoop bs ev.file ev.packetLogPos ev.kind ev.timestamp
      ev.rows batch last c = (c1, tr1, b1, l1, none))
    (hrec : pbfEventsLoop bs ef ep rest ev.file b1 l1 c1 =
      ⟨c2, tr2, b2, l2, sf2, e2⟩) :
    pbfEventsLoop bs ef ep (ev :: rest) sf batch last c =
      ⟨c2, tr1 ++ tr2, b2, l2, sf2, e2⟩ := by
  simp [pbfEventsLoop, hsc, hrl, hrec]

theorem pbfEventsLoop_below (stop : String × Nat) {bs : Nat}
    (hf : stop.1 ≠ "") (hp : stop.2 ≠ 0) :
    ∀ (stream : List BinlogEvent) (sf : String) (batch : List CdcEventDict)
      (last : Option (String × Nat)) (c : RunCore),
      (∀ ev ∈ batch, evBelow stop ev) →
      (∀ evs ok, TraceItem.sendBatch evs ok ∈
        (pbfEventsLoop bs (some stop.1) (some stop.2) stream sf batch
          last c).trace → ∀ ev ∈ evs, evBelow stop ev) ∧
      (∀ ev ∈ (pbfEventsLoop bs (some stop.1) (some stop.2) stream sf batch
        last c).batch, evBelow stop ev) := by
  intro stream
  induction stream with
  | nil =>
    intro sf batch last c hb
    exact ⟨fun evs ok hmem => absurd hmem (List.not_mem_nil _), hb⟩
  | cons ev rest ih =>
    intro sf batch last c hb
    cases hsc : stopCheck (some stop.1) (some stop.2) ev.file
        ev.packetLogPos with
    | true =>
      rw [pbfEventsLoop_cons_stop hsc]
      exact ⟨fun evs ok hmem => absurd hmem (List.not_mem_nil _), hb⟩
    | false =>
      have hlt : posLt (ev.file, ev.packetLogPos) (stop.1, stop.2) :=
        stopCheck_false_posLt hf hp hsc
      rcases hrl : pbfRowsLoop bs ev.file ev.packetLogPos ev.kind
          ev.timestamp ev.rows batch last c with ⟨c1, tr1, b1, l1, e1⟩
      obtain ⟨h1, h2⟩ := pbfRowsLoop_below stop hlt ev.rows batch
        last c hrl hb
      cases e1 with
      | some e =>
        rw [pbfEventsLoop_cons_err hsc hrl]
        exact ⟨h1, h2⟩
      | none =>
        rcases hrec : pbfEventsLoop bs (some stop.1) (some stop.2) rest
            ev.file b1 l1 c1 with ⟨c2, tr2, b2, l2, sf2, e2⟩
        obtain ⟨h3, h4⟩ := ih ev.file b1 l1 c1 h2
        rw [hrec] at h3 h4
        rw [pbfEventsLoop_cons_ok hsc hrl hrec]
        refine ⟨?_, h4⟩
        intro evs ok hmem ev' hev'
        rcases List.mem_append.mp hmem with hmem | hmem
        · exact h1 evs ok hmem ev' hev'
        · exact h3 evs ok hmem ev' hev'

theorem finalFlush_nil (last : Option (String × Nat)) (c : RunCore) :
    finalFlush [] last c = (c, [], none) := by
  simp [finalFlush]

theorem finalFlush_err {batch : List CdcEventDict} {c : RunCore}
    {s' : List ProcessedRecord} {o' : List Bool} {e : PyError}
    (last : Option (String × Nat)) (hne : batch ≠ [])
    (hsb : send_batch c.sink c.oracle batch = (s', o', .error e)) :
    finalFlush batch last c =
      ({c with sink := s', oracle := o'}, [.sendBatch batch false],
        some e) := by
  simp [finalFlush, hne, hsb]

theorem finalFlush_ok_set {batch : List CdcEventDict} {c : RunCore}
    {s' : List ProcessedRecord} {o' : List Bool} {n : Nat} {lf : String}
    {lp : Nat} (hne : batch ≠ [])
    (hsb : send_batch c.sink c.oracle batch = (s', o', .ok n))
    (hcond : lf ≠ "" ∧ lp ≠ 0) :
    finalFlush batch (some (lf, lp)) c =
      (⟨s', (set_watermark c.wm lf lp).1, o'⟩,
        [.sendBatch batch true, .setWm lf lp], none) := by
  simp [finalFlush, hne, hsb, hcond]

theorem finalFlush_ok_none {batch : List CdcEventDict} {c : RunCore}
    {s' : List ProcessedRecord} {o' : List Bool} {n : Nat} (hne : batch ≠ [])
    (hsb : send_batch c.sink c.oracle batch = (s', o', .ok n)) :
    finalFlush batch none c =
      (⟨s', c.wm, o'⟩, [.sendBatch batch true], none) := by
  simp [finalFlush, hne, hsb]

theorem finalFlush_ok_falsy {batch : List CdcEventDict} {c : RunCore}
    {s' : List ProcessedRecord} {o' : List Bool} {n : Nat} {lf : String}
    {lp : Nat} (hne : batch ≠ [])
    (hsb : send_batch c.sink c.oracle batch = (s', o', .ok n))
    (hcond : ¬(lf ≠ "" ∧ lp ≠ 0)) :
    finalFlush batch (some (lf, lp)) c =
      (⟨s', c.wm, o'⟩, [.sendBatch batch true], none) := by
  simp only [finalFlush, if_neg (by simpa using hne), hsb, if_neg hcond]

theorem finalFlush_below (stop : String × Nat) {batch : List CdcEventDict}
    {last : Option (String × Nat)} {c c' : RunCore} {tr : List TraceItem}
    {e' : Option PyError} (heq : finalFlush batch last c = (c', tr, e'))
    (hb : ∀ ev ∈ batch, evBelow stop ev) :
    ∀ evs ok, TraceItem.sendBatch evs ok ∈ tr →
      ∀ ev ∈ evs, evBelow stop ev := by
  by_cases h0 : batch = []
  · subst h0
    rw [finalFlush_nil] at heq
    simp only [Prod.mk.injEq] at heq
    obtain ⟨rfl, rfl, rfl⟩ := heq
    exact fun evs ok hmem => absurd hmem (List.not_mem_nil _)
  · rcases hsb : send_batch c.sink c.oracle batch with ⟨s2, o2, res⟩
    cases res with
    | error e =>
      rw [finalFlush_err last h0 hsb] at heq
      simp only [Prod.mk.injEq] at heq
      obtain ⟨rfl, rfl, rfl⟩ := heq
      intro evs ok hmem ev hev
      simp only [List.mem_singleton] at hmem
      injection hmem with hevs hok
      exact hb ev (hevs ▸ hev)
    | ok n =>
      cases last with
      | none =>
        rw [finalFlush_ok_none h0 hsb] at heq
        simp only [Prod.mk.injEq] at heq
        obtain ⟨rfl, rfl, rfl⟩ := heq
        intro evs ok hmem ev hev
        simp only [List.mem_singleton] at hmem
        injection hmem with hevs hok
        exact hb ev (hevs ▸ hev)
      | some lfp =>
        rcases lfp with ⟨lf, lp⟩
        by_cases hcond : lf ≠ "" ∧ lp ≠ 0
        · rw [finalFlush_ok_set h0 hsb hcond] at heq
          simp only [Prod.mk.injEq] at heq
          obtain ⟨rfl, rfl, rfl⟩ := heq
          intro evs ok hmem ev hev
          simp only [List.mem_cons, List.not_mem_nil, or_false] at hmem
          rcases hmem with hmem | hmem
          · injection hmem with hevs hok
            exact hb ev (hevs ▸ hev)
          · cases hmem
        · rw [finalFlush_ok_falsy h0 hsb hcond] at heq
          simp only [Prod.mk.injEq] at heq
          obtain ⟨rfl, rfl, rfl⟩ := heq
          intro evs ok hmem ev hev
          simp only [List.mem_singleton] at hmem
          injection hmem with hevs hok
          exact hb ev (hevs ▸ hev)

theorem process_binlog_file_eq_err {bs : Nat} {log_file : String}
    {sp : Option Nat} {ef : Option String} {ep : Option Nat}
    {stream : List BinlogEvent} {c : RunCore} {c1 : RunCore}
    {tr1 : List TraceItem} {b1 : List CdcEventDict}
    {l1 : Option (String × Nat)} {sf1 : String} {e : PyError}
    (hloop : pbfEventsLoop bs ef ep stream log_file [] none c =
      ⟨c1, tr1, b1, l1, sf1, some e⟩) :
    process_binlog_file bs log_file sp ef ep stream c =
      ⟨c1, tr1, false, some e⟩ := by
  simp [process_binlog_file, hloop]

theorem process_binlog_file_eq_flush_err {bs : Nat} {log_file : String}
    {sp : Option Nat} {ef : Option String} {ep : Option Nat}
    {stream : List BinlogEvent} {c : RunCore} {c1 : RunCore}
    {tr1 : List TraceItem} {b1 : List CdcEventDict}
    {l1 : Option (String × Nat)} {sf1 : String} {c2 : RunCore}
    {tr2 : List TraceItem} {e : PyError}
    (hloop : pbfEventsLoop bs ef ep stream log_file [] none c =
      ⟨c1, tr1, b1, l1, sf1, none⟩)
    (hffl : finalFlush b1 l1 c1 = (c2, tr2, some e)) :
    process_binlog_file bs log_file sp ef ep stream c =
      ⟨c2, tr1 ++ tr2, false, some e⟩ := by
  simp [process_binlog_file, hloop, hffl]

theorem process_binlog_file_eq_ok {bs : Nat} {log_file : String}
    {sp : Option Nat} {ef : Option String} {ep : Option Nat}
    {stream : List BinlogEvent} {c : RunCore} {c1 : RunCore}
    {tr1 : List TraceItem} {b1 : List CdcEventDict}
    {l1 : Option (String × Nat)} {sf1 : String} {c2 : RunCore}
    {tr2 : List TraceItem}
    (hloop : pbfEventsLoop bs ef ep stream log_file [] none c =
      ⟨c1, tr1, b1, l1, sf1, none⟩)
    (hffl : finalFlush b1 l1 c1 = (c2, tr2, none)) :
    process_binlog_file bs log_file sp ef ep stream c =
      ⟨c2, tr1 ++ tr2,
        (match ef with
          | some f => decide (f ≠ "") && strLeB f sf1
          | none => false), none⟩ := by
  simp [process_binlog_file, hloop, hffl]
  cases ef <;> rfl

theorem process_binlog_file_below (stop : String × Nat) (bs : Nat)
    (lf : String) (sp : Option Nat) (stream : List BinlogEvent) (c : RunCore)
    (hf : stop.1 ≠ "") (hp : stop.2 ≠ 0) :
    ∀ evs ok, TraceItem.sendBatch evs ok ∈
      (process_binlog_file bs lf sp (some stop.1) (some stop.2) stream
        c).trace → ∀ ev ∈ evs, evBelow stop ev := by
  rcases hloop : pbfEventsLoop bs (some stop.1) (some stop.2) stream lf []
      none c with ⟨c1, tr1, b1, l1, sf1, e1⟩
  obtain ⟨h1, h2⟩ := pbfEventsLoop_below stop hf hp stream lf [] none c
    (fun ev hev => absurd hev (List.not_mem_nil _))
  rw [hloop] at h1 h2
  cases e1 with
  | some e =>
    rw [process_binlog_file_eq_err hloop]
    exact h1
  | none =>
    rcases hffl : finalFlush b1 l1 c1 with ⟨c2, tr2, e2⟩
    have h3 := finalFlush_below stop hffl h2
    cases e2 with
    | some e =>
      rw [process_binlog_file_eq_flush_err hloop hffl]
      intro evs ok hmem ev hev
      rcases List.mem_append.mp hmem with hmem | hmem
      · exact h1 evs ok hmem ev hev
      · exact h3 evs ok hmem ev hev
    | none =>
      rw [process_binlog_file_eq_ok hloop hffl]
      intro evs ok hmem ev hev
      rcases List.mem_append.mp hmem with hmem | hmem
      · exact h1 evs ok hmem ev hev
      · exact h3 evs ok hmem ev hev

theorem runFilesLoop_nil (src : SourceModel) (bs : Nat) (sp : Option Nat)
    (isFirst : Bool) (c : RunCore) :
    runFilesLoop src bs sp [] isFirst c = ⟨c, [], none⟩ :=
  rfl

theorem runFilesLoop_cons_err {src : SourceModel} {bs : Nat} {sp : Option Nat}
    {f : String} {rest : List String} {isFirst : Bool} {c : RunCore}
    {c1 : RunCore} {tr1 : List TraceItem} {ic : Bool} {e : PyError}
    (hpass : process_binlog_file bs f (startPosFor sp isFirst c.wm f)
      (if rest = [] then some src.stopFile else none)
      (if rest = [] then some src.stopPos else none)
      (src.streamFrom f (startPosFor sp isFirst c.wm f)) c =
      ⟨c1, tr1, ic, some e⟩) :
    runFilesLoop src bs sp (f :: rest) isFirst c =
      ⟨c1, .openStream f (startPosFor sp isFirst c.wm f) c.wm :: tr1,
        some e⟩ := by
  simp [runFilesLoop, hpass]

theorem runFilesLoop_cons_done {src : SourceModel} {bs : Nat}
    {sp : Option Nat} {f : String} {rest : List String} {isFirst : Bool}
    {c : RunCore} {c1 : RunCore} {tr1 : List TraceItem}
    (hpass : process_binlog_file bs f (startPosFor sp isFirst c.wm f)
      (if rest = [] then some src.stopFile else none)
      (if rest = [] then some src.stopPos else none)
      (src.streamFrom f (startPosFor sp isFirst c.wm f)) c =
      ⟨c1, tr1, true, none⟩) :
    runFilesLoop src bs sp (f :: rest) isFirst c =
      ⟨c1, .openStream f (startPosFor sp isFirst c.wm f) c.wm :: tr1,
        none⟩ := by
  simp [runFilesLoop, hpass]

theorem runFilesLoop_cons_cont {src : SourceModel} {bs : Nat}
    {sp : Option Nat} {f : String} {rest : List String} {isFirst : Bool}
    {c : RunCore} {c1 : RunCore} {tr1 : List TraceItem} {c2 : RunCore}
    {tr2 : List TraceItem} {e2 : Option PyError}
    (hpass : process_binlog_file bs f (startPosFor sp isFirst c.wm f)
      (if rest = [] then some src.stopFile else none)
      (if rest = [] then some src.stopPos else none)
      (src.streamFrom f (startPosFor sp isFirst c.wm f)) c =
      ⟨c1, tr1, false, none⟩)
    (hrec : runFilesLoop src bs sp rest false c1 = ⟨c2, tr2, e2⟩) :
    runFilesLoop src bs sp (f :: rest) isFirst c =
      ⟨c2, .openStream f (startPosFor sp isFirst c.wm f) c.wm ::
        (tr1 ++ tr2), e2⟩ := by
  simp [runFilesLoop, hpass, hrec]

theorem runFilesLoop_singleton_ok {src : SourceModel} {bs : Nat}
    {sp : Option Nat} {f : String} {isFirst : Bool} {c : RunCore}
    {c1 : RunCore} {tr1 : List TraceItem} {ic : Bool}
    (hpass : process_binlog_file bs f (startPosFor sp isFirst c.wm f)
      (some src.stopFile) (some src.stopPos)
      (src.streamFrom f (startPosFor sp isFirst c.wm f)) c =
      ⟨c1, tr1, ic, none⟩) :
    runFilesLoop src bs sp [f] isFirst c =
      ⟨c1, .openStream f (startPosFor sp isFirst c.wm f) c.wm :: tr1,
        none⟩ := by
  cases ic with
  | true => exact runFilesLoop_cons_done hpass
  | false =>
    rw [runFilesLoop_cons_cont hpass (runFilesLoop_nil src bs sp false c1)]
    simp

theorem run_cdc_worker_eq_init_none {src : SourceModel} {bs : Nat}
    {c : RunCore} (h : (get_watermark c.wm).log_file = none) :
    run_cdc_worker src bs c =
      ⟨{c with wm := (set_watermark c.wm src.stopFile src.stopPos).1},
        [.setWm src.stopFile src.stopPos], none⟩ := by
  simp [run_cdc_worker, h]

theorem run_cdc_worker_eq_init_empty {src : SourceModel} {bs : Nat}
    {c : RunCore} (h : (get_watermark c.wm).log_file = some "") :
    run_cdc_worker src bs c =
      ⟨{c with wm := (set_watermark c.wm src.stopFile src.stopPos).1},
        [.setWm src.stopFile src.stopPos], none⟩ := by
  simp [run_cdc_worker, h]

theorem run_cdc_worker_eq_main {src : SourceModel} {bs : Nat} {c : RunCore}
    {sf : String} {si pi : Nat}
    (h : (get_watermark c.wm).log_file = some sf) (hne : sf ≠ "")
    (hsi : (get_binlog_files src.binlogRows).findIdx?
      (fun x => decide (x = sf)) = some si)
    (hpi : (get_binlog_files src.binlogRows).findIdx?
      (fun x => decide (x = src.stopFile)) = some pi) :
    run_cdc_worker src bs c =
      runFilesLoop src bs (get_watermark c.wm).log_pos
        (((get_binlog_files src.binlogRows).take (pi + 1)).drop si) true c := by
  simp [run_cdc_worker, h, hne, hsi, hpi]

theorem run_cdc_worker_eq_gapped_left {src : SourceModel} {bs : Nat}
    {c : RunCore} {sf : String}
    (h : (get_watermark c.wm).log_file = some sf) (hne : sf ≠ "")
    (hsi : (get_binlog_files src.binlogRows).findIdx?
      (fun x => decide (x = sf)) = none) :
    run_cdc_worker src bs c = ⟨c, [], some .binlogGapped⟩ := by
  simp [run_cdc_worker, h, hne, hsi]

theorem run_cdc_worker_eq_gapped_right {src : SourceModel} {bs : Nat}
    {c : RunCore} {sf : String} {si : Nat}
    (h : (get_watermark c.wm).log_file = some sf) (hne : sf ≠ "")
    (hsi : (get_binlog_files src.binlogRows).findIdx?
      (fun x => decide (x = sf)) = some si)
    (hpi : (get_binlog_files src.binlogRows).findIdx?
      (fun x => decide (x = src.stopFile)) = none) :
    run_cdc_worker src bs c = ⟨c, [], some .binlogGapped⟩ := by
  simp [run_cdc_worker, h, hne, hsi, hpi]

theorem take_drop_singleton {α : Type} :
    ∀ (l : List α) (n : Nat) (h : n < l.length),
      (l.take (n + 1)).drop n = [l.get ⟨n, h⟩] := by
  intro l
  induction l with
  | nil => intro n h; cases h
  | cons a tl ih =>
    intro n h
    cases n with
    | zero => rfl
    | succ m =>
      have hm : m < tl.length := Nat.lt_of_succ_lt_succ h
      simpa using ih m hm

/-- C3 counterexample: a live run whose watermark file and stop file
differ.  Source: files `[mysql-bin.000001, mysql-bin.000002]`, watermark
`(mysql-bin.000001, 4)`, captured stop position `(mysql-bin.000002, 10)`.
The non-blocking reader opened at the watermark drains past the stop
cursor and yields an event at `(mysql-bin.000002, 50)`; the pass over the
non-final file carries no stop bound (`end_file`/`end_pos` are only passed
for `i == stop_idx`), so the event — whose position is `≥ P_stop` — is
processed, batched and appended, contradicting the claim. -/
theorem C3_counterexample :
    ((run_cdc_worker
      ⟨"mysql-bin.000002", 10, [⟨"mysql-bin.000001"⟩, ⟨"mysql-bin.000002"⟩],
        fun f _ => if f = "mysql-bin.000001" then
          [⟨.write, "mysql-bin.000002", 50, 7,
            [⟨some [("id", .pyInt 1)], none⟩]⟩]
        else []⟩
      100 ⟨[], some ⟨some "mysql-bin.000001", some 4, true⟩, []⟩).core.sink.map
        (fun r => (r.log_file, r.log_position)))
      = [("mysql-bin.000002", 50)] ∧
    posLe ("mysql-bin.000002", 10) ("mysql-bin.000002", 50) := by
  exact ⟨by decide, by decide⟩

/-- C3 (amended): the strict stop boundary holds for the pass that carries
the stop bound — in particular for every run whose start and stop files
resolve to the same binlog-list index (with a truthy stop position): no
event with position `≥ P_stop` is processed, batched or appended there.
In multi-file runs the passes over non-final files receive no
`end_file`/`end_pos`, so the non-blocking reader can carry the run past
`P_stop` (see the counterexample). -/
theorem C3_single_file_strict_stop (src : SourceModel) (bs : Nat)
    (c : RunCore) (sf : String)
    (hsf : (get_watermark c.wm).log_file = some sf) (hne : sf ≠ "")
    (hstopf : src.stopFile ≠ "") (hstopp : src.stopPos ≠ 0)
    (hidx : (get_binlog_files src.binlogRows).findIdx?
        (fun x => decide (x = sf)) =
      (get_binlog_files src.binlogRows).findIdx?
        (fun x => decide (x = src.stopFile))) :
    ∀ evs ok, TraceItem.sendBatch evs ok ∈ (run_cdc_worker src bs c).trace →
      ∀ ev ∈ evs, evBelow (src.stopFile, src.stopPos) ev := by
  cases hsi : (get_binlog_files src.binlogRows).findIdx?
      (fun x => decide (x = sf)) with
  | none =>
    rw [run_cdc_worker_eq_gapped_left hsf hne hsi]
    intro evs ok hmem
    cases hmem
  | some si =>
    have hpi : (get_binlog_files src.binlogRows).findIdx?
        (fun x => decide (x = src.stopFile)) = some si := by
      rw [← hidx, hsi]
    have hlen : si < (get_binlog_files src.binlogRows).length := by
      have := List.findIdx?_eq_some_iff_findIdx_eq.mp hsi
      exact this.1
    rw [run_cdc_worker_eq_main hsf hne hsi hpi,
      take_drop_singleton (get_binlog_files src.binlogRows) si hlen]
    rcases hpass : process_binlog_file bs
        ((get_binlog_files src.binlogRows).get ⟨si, hlen⟩)
        (startPosFor (get_watermark c.wm).log_pos true c.wm
          ((get_binlog_files src.binlogRows).get ⟨si, hlen⟩))
        (some src.stopFile) (some src.stopPos)
        (src.streamFrom ((get_binlog_files src.binlogRows).get ⟨si, hlen⟩)
          (startPosFor (get_watermark c.wm).log_pos true c.wm
            ((get_binlog_files src.binlogRows).get ⟨si, hlen⟩))) c
        with ⟨c1, tr1, ic, e1⟩
    have hbelow := process_binlog_file_below (src.stopFile, src.stopPos) bs
      ((get_binlog_files src.binlogRows).get ⟨si, hlen⟩)
      (startPosFor (get_watermark c.wm).log_pos true c.wm
        ((get_binlog_files src.binlogRows).get ⟨si, hlen⟩))
      (src.streamFrom ((get_binlog_files src.binlogRows).get ⟨si, hlen⟩)
        (startPosFor (get_watermark c.wm).log_pos true c.wm
          ((get_binlog_files src.binlogRows).get ⟨si, hlen⟩))) c
      hstopf hstopp
    rw [hpass] at hbelow
    cases e1 with
    | some e =>
      rw [runFilesLoop_cons_err hpass]
      intro evs ok hmem ev hev
      rcases List.mem_cons.mp hmem with hmem | hmem
      · cases hmem
      · exact hbelow evs ok hmem ev hev
    | none =>
      rw [runFilesLoop_singleton_ok hpass]
      intro evs ok hmem ev hev
      rcases List.mem_cons.mp hmem with hmem | hmem
      · cases hmem
      · exact hbelow evs ok hmem ev hev

/-- C3 witness: a single-file run (watermark and stop both in
`mysql-bin.000001`, stop position 100) whose reader yields one event below
the stop; the theorem applies and the appended event is strictly below
`P_stop`. -/
theorem C3_single_file_strict_stop_witness :
    evBelow ("mysql-bin.000001", 100)
      ⟨some "insert", some (.tsInt 7), some "mysql-bin.000001", some 50,
        some [("id", .pyInt 1)]⟩ :=
  C3_single_file_strict_stop
    ⟨"mysql-bin.000001", 100, [⟨"mysql-bin.000001"⟩],
      fun f _ => if f = "mysql-bin.000001" then
        [⟨.write, "mysql-bin.000001", 50, 7,
          [⟨some [("id", .pyInt 1)], none⟩]⟩,
         ⟨.write, "mysql-bin.000001", 100, 8,
          [⟨some [("id", .pyInt 2)], none⟩]⟩]
      else []⟩
    100 ⟨[], some ⟨some "mysql-bin.000001", some 4, true⟩, []⟩
    "mysql-bin.000001" rfl (by decide) (by decide) (by decide) (by decide)
    [⟨some "insert", some (.tsInt 7), some "mysql-bin.000001", some 50,
      some [("id", .pyInt 1)]⟩] true (by decide)
    ⟨some "insert", some (.tsInt 7), some "mysql-bin.000001", some 50,
      some [("id", .pyInt 1)]⟩ (by decide)

/-! ## C7: BinlogGapped -/

theorem except_error_bind {e : PyError} {a b : Type}
    (f : a → Except PyError b) :
    (Except.error e >>= f) = Except.error e := rfl

theorem except_ok_bind {a b : Type} (x : a) (f : a → Except PyError b) :
    (Except.ok x >>= f) = f x := rfl

theorem serializeVal_ne_gapped {v : PyVal} {e : PyError}
    (h : serializeVal v = .error e) : e ≠ .binlogGapped := by
  cases v <;> simp [serializeVal] at h <;> simp [← h]

theorem serializeFields_ne_gapped :
    ∀ {row : RowMap} {e : PyError}, serializeFields row = .error e →
      e ≠ .binlogGapped := by
  intro row
  induction row with
  | nil => intro e h; simp [serializeFields] at h
  | cons kv rest ih =>
    intro e h
    rw [serializeFields] at h
    cases hv : serializeVal kv.2 with
    | error e1 =>
      rw [hv, except_error_bind] at h
      injection h with h1
      exact h1 ▸ serializeVal_ne_gapped hv
    | ok v =>
      rw [hv, except_ok_bind] at h
      cases hr : serializeFields rest with
      | error e2 =>
        rw [hr, except_error_bind] at h
        injection h with h1
        exact h1 ▸ ih hr
      | ok vs =>
        rw [hr, except_ok_bind] at h
        cases h

theorem serializeRow_ne_gapped {row : RowMap} {e : PyError}
    (h : serializeRow row = .error e) : e ≠ .binlogGapped := by
  rw [serializeRow] at h
  cases hf : serializeFields row with
  | error e1 =>
    rw [hf, except_error_bind] at h
    injection h with h1
    exact h1 ▸ serializeFields_ne_gapped hf
  | ok fields =>
    rw [hf, except_ok_bind] at h
    cases h

theorem processEvent_ne_gapped {ev : CdcEventDict} {e : PyError}
    (h : processEvent ev = .error e) : e ≠ .binlogGapped := by
  obtain ⟨et, ts, lf, lp, row⟩ := ev
  cases et with
  | none =>
    simp [processEvent] at h
    simp [← h]
  | some et =>
    cases ts with
    | none =>
      simp [processEvent] at h
      simp [← h]
    | some ts =>
      cases row with
      | none =>
        simp [processEvent] at h
        simp [← h]
      | some row =>
        cases hs : serializeRow row with
        | error e1 =>
          simp [processEvent, hs] at h
          exact h ▸ serializeRow_ne_gapped hs
        | ok payload =>
          simp [processEvent, hs] at h

theorem processEvents_ne_gapped :
    ∀ {events : List CdcEventDict} {e : PyError},
      processEvents events = .error e → e ≠ .binlogGapped := by
  intro events
  induction events with
  | nil => intro e h; simp [processEvents] at h
  | cons ev rest ih =>
    intro e h
    rw [processEvents] at h
    cases hp : processEvent ev with
    | error e1 =>
      rw [hp, except_error_bind] at h
      injection h with h1
      exact h1 ▸ processEvent_ne_gapped hp
    | ok rec1 =>
      rw [hp, except_ok_bind] at h
      cases hr : processEvents rest with
      | error e2 =>
        rw [hr, except_error_bind] at h
        injection h with h1
        exact h1 ▸ ih hr
      | ok recs =>
        rw [hr, except_ok_bind] at h
        cases h

theorem send_batch_ne_gapped {sink : List ProcessedRecord}
    {oracle : List Bool} {events : List CdcEventDict}
    {s' : List ProcessedRecord} {o' : List Bool} {e : PyError}
    (h : send_batch sink oracle events = (s', o', .error e)) :
    e ≠ .binlogGapped := by
  by_cases hne : events = []
  · subst hne
    rw [send_batch_nil] at h
    simp at h
  · cases hpe : processEvents events with
    | error e1 =>
      rw [send_batch_proc_err sink oracle hne hpe] at h
      simp only [Prod.mk.injEq] at h
      obtain ⟨-, -, h3⟩ := h
      injection h3 with h4
      exact h4 ▸ processEvents_ne_gapped hpe
    | ok processed =>
      cases oracle with
      | nil =>
        rw [send_batch_ok_none sink hne hpe] at h
        simp at h
      | cons ob rest =>
        cases ob with
        | true =>
          rw [send_batch_ok_true sink rest hne hpe] at h
          simp at h
        | false =>
          rw [send_batch_ok_false sink rest hne hpe] at h
          simp only [Prod.mk.injEq] at h
          obtain ⟨-, -, h3⟩ := h
          injection h3 with h4
          simp [← h4]

theorem flushFull_ne_gapped {bs : Nat} {cf : String} {cp : Nat}
    {batch : List CdcEventDict} {c c' : RunCore} {tr : List TraceItem}
    {b' : List CdcEventDict} {e : PyError}
    (h : flushFull bs cf cp batch c = (c', tr, b', some e)) :
    e ≠ .binlogGapped := by
  by_cases hfull : bs ≤ batch.length
  · rcases hsb : send_batch c.sink c.oracle batch with ⟨s2, o2, res⟩
    cases res with
    | error e1 =>
      rw [flushFull_full_err cf cp c hfull hsb] at h
      simp only [Prod.mk.injEq] at h
      obtain ⟨-, -, -, h4⟩ := h
      injection h4 with h5
      exact h5 ▸ send_batch_ne_gapped hsb
    | ok n =>
      rw [flushFull_full_ok cf cp c hfull hsb] at h
      simp at h
  · rw [flushFull_not_full cf cp c hfull] at h
    simp at h

theorem pbfRowsLoop_ne_gapped {bs : Nat} {cf : String} {cp : Nat}
    {kind : EventKind} {ts : Nat} :
    ∀ {rows : List RawRow} {batch : List CdcEventDict}
      {last : Option (String × Nat)} {c c' : RunCore} {tr : List TraceItem}
      {b' : List CdcEventDict} {l' : Option (String × Nat)} {e : PyError},
      pbfRowsLoop bs cf cp kind ts rows batch last c =
        (c', tr, b', l', some e) → e ≠ .binlogGapped := by
  intro rows
  induction rows with
  | nil =>
    intro batch last c c' tr b' l' e h
    rw [pbfRowsLoop_nil] at h
    simp at h
  | cons r rs ih =>
    intro batch last c c' tr b' l' e h
    rcases hff : flushFull bs cf cp (batch ++
        [(⟨some (kindName kind), some (.tsInt ts), some cf, some cp,
          rowToData kind r⟩ : CdcEventDict)]) c with ⟨c1, tr1, b1, e1⟩
    cases e1 with
    | some ef =>
      rw [pbfRowsLoop_cons_err hff] at h
      simp only [Prod.mk.injEq] at h
      obtain ⟨-, -, -, -, h5⟩ := h
      injection h5 with h6
      exact h6 ▸ flushFull_ne_gapped hff
    | none =>
      rcases hrec : pbfRowsLoop bs cf cp kind ts rs b1 (some (cf, cp)) c1
        with ⟨c2, tr2, b2, l2, e2⟩
      rw [pbfRowsLoop_cons_ok hff hrec] at h
      simp only [Prod.mk.injEq] at h
      obtain ⟨-, -, -, -, h5⟩ := h
      cases e2 with
      | none => cases h5
      | some e3 =>
        injection h5 with h6
        exact h6 ▸ ih hrec

theorem pbfEventsLoop_ne_gapped {bs : Nat} {ef : Option String}
    {ep : Option Nat} :
    ∀ (stream : List BinlogEvent) (sf : String) (batch : List CdcEventDict)
      (last : Option (String × Nat)) (c : RunCore) (e : PyError),
      (pbfEventsLoop bs ef ep stream sf batch last c).err = some e →
      e ≠ .binlogGapped := by
  intro stream
  induction stream with
  | nil =>
    intro sf batch last c e h
    rw [pbfEventsLoop_nil] at h
    simp at h
  | cons ev rest ih =>
    intro sf batch last c e h
    cases hsc : stopCheck ef ep ev.file ev.packetLogPos with
    | true =>
      rw [pbfEventsLoop_cons_stop hsc] at h
      simp at h
    | false =>
      rcases hrl : pbfRowsLoop bs ev.file ev.packetLogPos ev.kind
          ev.timestamp ev.rows batch last c with ⟨c1, tr1, b1, l1, e1⟩
      cases e1 with
      | some e2 =>
        rw [pbfEventsLoop_cons_err hsc hrl] at h
        simp only [] at h
        injection h with h2
        exact h2 ▸ pbfRowsLoop_ne_gapped hrl
      | none =>
        rcases hrec : pbfEventsLoop bs ef ep rest ev.file b1 l1 c1
          with ⟨c2, tr2, b2, l2, sf2, e2⟩
        rw [pbfEventsLoop_cons_ok hsc hrl hrec] at h
        simp only [] at h
        cases e2 with
        | none => cases h
        | some e3 =>
          injection h with h2
          have := ih ev.file b1 l1 c1 e3 (by rw [hrec])
          exact h2 ▸ this

theorem finalFlush_ne_gapped {batch : List CdcEventDict}
    {last : Option (String × Nat)} {c c' : RunCore} {tr : List TraceItem}
    {e : PyError} (h : finalFlush batch last c = (c', tr, some e)) :
    e ≠ .binlogGapped := by
  by_cases h0 : batch = []
  · subst h0
    rw [finalFlush_nil] at h
    simp at h
  · rcases hsb : send_batch c.sink c.oracle batch with ⟨s2, o2, res⟩
    cases res with
    | error e1 =>
      rw [finalFlush_err last h0 hsb] at h
      simp only [Prod.mk.injEq] at h
      obtain ⟨-, -, h3⟩ := h
      injection h3 with h4
      exact h4 ▸ send_batch_ne_gapped hsb
    | ok n =>
      cases last with
      | none =>
        rw [finalFlush_ok_none h0 hsb] at h
        simp at h
      | some lfp =>
        rcases lfp with ⟨lf, lp⟩
        by_cases hcond : lf ≠ "" ∧ lp ≠ 0
        · rw [finalFlush_ok_set h0 hsb hcond] at h
          simp at h
        · rw [finalFlush_ok_falsy h0 hsb hcond] at h
          simp at h

theorem process_binlog_file_ne_gapped {bs : Nat} {log_file : String}
    {sp : Option Nat} {ef : Option String} {ep : Option Nat}
    {stream : List BinlogEvent} {c : RunCore} {e : PyError}
    (h : (process_binlog_file bs log_file sp ef ep stream c).err = some e) :
    e ≠ .binlogGapped := by
  rcases hloop : pbfEventsLoop bs ef ep stream log_file [] none c
    with ⟨c1, tr1, b1, l1, sf1, e1⟩
  cases e1 with
  | some e2 =>
    rw [process_binlog_file_eq_err hloop] at h
    simp only [] at h
    injection h with h2
    exact h2 ▸ pbfEventsLoop_ne_gapped stream log_file [] none c e2
      (by rw [hloop])
  | none =>
    rcases hffl : finalFlush b1 l1 c1 with ⟨c2, tr2, e2⟩
    cases e2 with
    | some e3 =>
      rw [process_binlog_file_eq_flush_err hloop hffl] at h
      simp only [] at h
      injection h with h2
      exact h2 ▸ finalFlush_ne_gapped hffl
    | none =>
      rw [process_binlog_file_eq_ok hloop hffl] at h
      simp at h

theorem runFilesLoop_ne_gapped {src : SourceModel} {bs : Nat}
    {sp : Option Nat} :
    ∀ {files : List String} {isFirst : Bool} {c : RunCore} {e : PyError},
      (runFilesLoop src bs sp files isFirst c).err = some e →
      e ≠ .binlogGapped := by
  intro files
  induction files with
  | nil =>
    intro isFirst c e h
    rw [runFilesLoop_nil] at h
    simp at h
  | cons f rest ih =>
    intro isFirst c e h
    rcases hpass : process_binlog_file bs f (startPosFor sp isFirst c.wm f)
        (if rest = [] then some src.stopFile else none)
        (if rest = [] then some src.stopPos else none)
        (src.streamFrom f (startPosFor sp isFirst c.wm f)) c
        with ⟨c1, tr1, ic, e1⟩
    cases e1 with
    | some e2 =>
      rw [runFilesLoop_cons_err hpass] at h
      simp only [] at h
      injection h with h2
      exact h2 ▸ process_binlog_file_ne_gapped (by rw [hpass])
    | none =>
      cases ic with
      | true =>
        rw [runFilesLoop_cons_done hpass] at h
        simp at h
      | false =>
        rcases hrec : runFilesLoop src bs sp rest false c1
          with ⟨c2, tr2, e2⟩
        rw [runFilesLoop_cons_cont hpass hrec] at h
        simp only [] at h
        cases e2 with
        | none => cases h
        | some e3 =>
          injection h with h2
          exact h2 ▸ ih (by rw [hrec])

/-- C7: in live mode with a non-empty start watermark, if the watermark's
file or the captured stop file is missing from the `SHOW BINARY LOGS`
list, the run fails with the `BinlogGapped` error before any binlog
processing (empty trace, state unchanged); when both files are present
this error is never raised. -/
theorem C7_binlog_gapped (src : SourceModel) (bs : Nat) (c : RunCore)
    (sf : String) (hsf : (get_watermark c.wm).log_file = some sf)
    (hne : sf ≠ "") :
    ((sf ∉ get_binlog_files src.binlogRows ∨
        src.stopFile ∉ get_binlog_files src.binlogRows) →
      run_cdc_worker src bs c = ⟨c, [], some .binlogGapped⟩) ∧
    (sf ∈ get_binlog_files src.binlogRows →
      src.stopFile ∈ get_binlog_files src.binlogRows →
      (run_cdc_worker src bs c).err ≠ some .binlogGapped) := by
  constructor
  · intro hmiss
    rcases hmiss with hmiss | hmiss
    · have hsi : (get_binlog_files src.binlogRows).findIdx?
          (fun x => decide (x = sf)) = none := by
        rw [List.findIdx?_eq_none_iff]
        intro x hx
        simp only [decide_eq_false_iff_not]
        intro hxe
        exact hmiss (hxe ▸ hx)
      exact run_cdc_worker_eq_gapped_left hsf hne hsi
    · cases hsi : (get_binlog_files src.binlogRows).findIdx?
          (fun x => decide (x = sf)) with
      | none => exact run_cdc_worker_eq_gapped_left hsf hne hsi
      | some si =>
        have hpi : (get_binlog_files src.binlogRows).findIdx?
            (fun x => decide (x = src.stopFile)) = none := by
          rw [List.findIdx?_eq_none_iff]
          intro x hx
          simp only [decide_eq_false_iff_not]
          intro hxe
          exact hmiss (hxe ▸ hx)
        exact run_cdc_worker_eq_gapped_right hsf hne hsi hpi
  · intro hin1 hin2
    cases hsi : (get_binlog_files src.binlogRows).findIdx?
        (fun x => decide (x = sf)) with
    | none =>
      rw [List.findIdx?_eq_none_iff] at hsi
      have := hsi sf hin1
      simp at this
    | some si =>
      cases hpi : (get_binlog_files src.binlogRows).findIdx?
          (fun x => decide (x = src.stopFile)) with
      | none =>
        rw [List.findIdx?_eq_none_iff] at hpi
        have := hpi src.stopFile hin2
        simp at this
      | some pi =>
        rw [run_cdc_worker_eq_main hsf hne hsi hpi]
        intro hcontra
        exact runFilesLoop_ne_gapped hcontra rfl

/-- C7 witness: the S6 scenario (watermark file `mysql-bin.000001`, binlog
list `[mysql-bin.000004, mysql-bin.000005]`) raises `BinlogGapped`
untouched; the single-file source of the C3 witness, whose files are all
present, does not. -/
theorem C7_binlog_gapped_witness :
    run_cdc_worker
      ⟨"mysql-bin.000005", 10, [⟨"mysql-bin.000004"⟩, ⟨"mysql-bin.000005"⟩],
        fun _ _ => []⟩
      100 ⟨[], some ⟨some "mysql-bin.000001", some 400, true⟩, []⟩ =
      ⟨⟨[], some ⟨some "mysql-bin.000001", some 400, true⟩, []⟩, [],
        some .binlogGapped⟩ ∧
    (run_cdc_worker
      ⟨"mysql-bin.000001", 100, [⟨"mysql-bin.000001"⟩], fun _ _ => []⟩
      100 ⟨[], some ⟨some "mysql-bin.000001", some 4, true⟩, []⟩).err ≠
      some .binlogGapped := by
  constructor
  · exact (C7_binlog_gapped
      ⟨"mysql-bin.000005", 10, [⟨"mysql-bin.000004"⟩, ⟨"mysql-bin.000005"⟩],
        fun _ _ => []⟩
      100 ⟨[], some ⟨some "mysql-bin.000001", some 400, true⟩, []⟩
      "mysql-bin.000001" rfl (by decide)).1 (Or.inl (by decide))
  · exact (C7_binlog_gapped
      ⟨"mysql-bin.000001", 100, [⟨"mysql-bin.000001"⟩], fun _ _ => []⟩
      100 ⟨[], some ⟨some "mysql-bin.000001", some 4, true⟩, []⟩
      "mysql-bin.000001" rfl (by decide)).2 (by decide) (by decide)

/-! ## C4: the watermark advances only after a durable append

The shape of a worker trace is captured by two grammars.  `PassClean`
describes the trace of a `process_binlog_file` call in which every
`send_batch` succeeded: a sequence of successful sends, each optionally
followed — immediately — by the `set_watermark` call for that batch,
whose arguments are the position of the batch's last event.  `RunClean`
additionally allows `openStream` markers.  A failed send aborts the call,
so a failing trace is a clean prefix followed by exactly one failing
`sendBatch` item and nothing else. -/

/-- The `set_watermark` arguments equal the last batched event's
position. -/
def lastPosMatches (evs : List CdcEventDict) (f : String) (p : Nat) : Prop :=
  ∃ ev, evs.getLast? = some ev ∧ ev.log_file = some f ∧
    ev.log_position = some p

inductive PassClean : List TraceItem → Prop where
  | nil : PassClean []
  | send (evs : List CdcEventDict) (rest : List TraceItem) :
      PassClean rest → PassClean (.sendBatch evs true :: rest)
  | sendSet (evs : List CdcEventDict) (f : String) (p : Nat)
      (rest : List TraceItem) (hlast : lastPosMatches evs f p) :
      PassClean rest →
      PassClean (.sendBatch evs true :: .setWm f p :: rest)

inductive RunClean : List TraceItem → Prop where
  | nil : RunClean []
  | openStream (f : String) (s : Option Nat) (w : Option WatermarkRecord)
      (rest : List TraceItem) : RunClean rest →
      RunClean (.openStream f s w :: rest)
  | send (evs : List CdcEventDict) (rest : List TraceItem) :
      RunClean rest → RunClean (.sendBatch evs true :: rest)
  | sendSet (evs : List CdcEventDict) (f : String) (p : Nat)
      (rest : List TraceItem) (hlast : lastPosMatches evs f p) :
      RunClean rest →
      RunClean (.sendBatch evs true :: .setWm f p :: rest)

/-- A trace is either clean, or a clean prefix ended by one failed send. -/
def PassShape (tr : List TraceItem) : Prop :=
  PassClean tr ∨
    ∃ t1 evs, PassClean t1 ∧ tr = t1 ++ [TraceItem.sendBatch evs false]

/-- A run trace is either clean, or a clean prefix ended by one failed
send: after a failed append nothing more happens — in particular no
watermark write. -/
def RunShape (tr : List TraceItem) : Prop :=
  RunClean tr ∨
    ∃ t1 evs, RunClean t1 ∧ tr = t1 ++ [TraceItem.sendBatch evs false]

theorem PassClean_append {t1 t2 : List TraceItem} (h1 : PassClean t1)
    (h2 : PassClean t2) : PassClean (t1 ++ t2) := by
  induction h1 with
  | nil => exact h2
  | send evs rest _ ih => exact .send evs _ ih
  | sendSet evs f p rest hlast _ ih => exact .sendSet evs f p _ hlast ih

theorem RunClean_append {t1 t2 : List TraceItem} (h1 : RunClean t1)
    (h2 : RunClean t2) : RunClean (t1 ++ t2) := by
  induction h1 with
  | nil => exact h2
  | openStream f s w rest _ ih => exact .openStream f s w _ ih
  | send evs rest _ ih => exact .send evs _ ih
  | sendSet evs f p rest hlast _ ih => exact .sendSet evs f p _ hlast ih

theorem RunClean_of_PassClean {t : List TraceItem} (h : PassClean t) :
    RunClean t := by
  induction h with
  | nil => exact .nil
  | send evs rest _ ih => exact .send evs _ ih
  | sendSet evs f p rest hlast _ ih => exact .sendSet evs f p _ hlast ih

/-- The loop invariant tying `last_log_file`/`last_log_pos` to the batch
buffer: a non-empty batch ends with the event whose position `last`
records. -/
def LastMatch (batch : List CdcEventDict) (last : Option (String × Nat)) :
    Prop :=
  batch ≠ [] → ∃ lf lp, last = some (lf, lp) ∧ lastPosMatches batch lf lp

theorem flushFull_shape {bs : Nat} {cf : String} {cp : Nat}
    {batch : List CdcEventDict} {c c' : RunCore} {tr : List TraceItem}
    {b' : List CdcEventDict} {e' : Option PyError}
    (heq : flushFull bs cf cp batch c = (c', tr, b', e'))
    (hlast : lastPosMatches batch cf cp) :
    (e' = none → PassClean tr ∧ b' = [] ∨ e' = none ∧ tr = [] ∧ b' = batch) ∧
    (∀ e, e' = some e → tr = [TraceItem.sendBatch batch false] ∧
      b' = batch) := by
  by_cases hfull : bs ≤ batch.length
  · rcases hsb : send_batch c.sink c.oracle batch with ⟨s2, o2, res⟩
    cases res with
    | error e1 =>
      rw [flushFull_full_err cf cp c hfull hsb] at heq
      simp only [Prod.mk.injEq] at heq
      obtain ⟨rfl, rfl, rfl, rfl⟩ := heq
      refine ⟨?_, ?_⟩
      · intro h
        exact nomatch h
      · intro e he
        exact ⟨rfl, rfl⟩
    | ok n =>
      rw [flushFull_full_ok cf cp c hfull hsb] at heq
      simp only [Prod.mk.injEq] at heq
      obtain ⟨rfl, rfl, rfl, rfl⟩ := heq
      refine ⟨fun _ => Or.inl ⟨?_, rfl⟩, fun e he => by cases he⟩
      exact .sendSet batch cf cp [] hlast .nil
  · rw [flushFull_not_full cf cp c hfull] at heq
    simp only [Prod.mk.injEq] at heq
    obtain ⟨rfl, rfl, rfl, rfl⟩ := heq
    exact ⟨fun _ => Or.inr ⟨rfl, rfl, rfl⟩, fun e he => by cases he⟩

theorem pbfRowsLoop_shape {bs : Nat} {cf : String} {cp : Nat}
    {kind : EventKind} {ts : Nat} :
    ∀ (rows : List RawRow) (batch : List CdcEventDict)
      (last : Option (String × Nat)) (c : RunCore) {c' : RunCore}
      {tr : List TraceItem} {b' : List CdcEventDict}
      {l' : Option (String × Nat)} {e' : Option PyError},
      pbfRowsLoop bs cf cp kind ts rows batch last c = (c', tr, b', l', e') →
      LastMatch batch last →
      (e' = none → PassClean tr ∧ LastMatch b' l') ∧
      (∀ e, e' = some e →
        ∃ t1 evs, PassClean t1 ∧ tr = t1 ++ [TraceItem.sendBatch evs false]) := by
  intro rows
  induction rows with
  | nil =>
    intro batch last c c' tr b' l' e' heq hlm
    rw [pbfRowsLoop_nil] at heq
    simp only [Prod.mk.injEq] at heq
    obtain ⟨rfl, rfl, rfl, rfl, rfl⟩ := heq
    exact ⟨fun _ => ⟨.nil, hlm⟩, fun e he => by cases he⟩
  | cons r rs ih =>
    intro batch last c c' tr b' l' e' heq hlm
    have hlast : lastPosMatches (batch ++
        [(⟨some (kindName kind), some (.tsInt ts), some cf, some cp,
          rowToData kind r⟩ : CdcEventDict)]) cf cp := by
      refine ⟨_, List.getLast?_concat _, rfl, rfl⟩
    rcases hff : flushFull bs cf cp (batch ++
        [(⟨some (kindName kind), some (.tsInt ts), some cf, some cp,
          rowToData kind r⟩ : CdcEventDict)]) c with ⟨c1, tr1, b1, e1⟩
    obtain ⟨hok, herr⟩ := flushFull_shape hff hlast
    cases e1 with
    | some e =>
      rw [pbfRowsLoop_cons_err hff] at heq
      simp only [Prod.mk.injEq] at heq
      obtain ⟨rfl, rfl, rfl, rfl, rfl⟩ := heq
      obtain ⟨rfl, rfl⟩ := herr e rfl
      refine ⟨?_, ?_⟩
      · intro h
        exact nomatch h
      · intro e2 he2
        exact ⟨[], batch ++
          [(⟨some (kindName kind), some (.tsInt ts), some cf, some cp,
            rowToData kind r⟩ : CdcEventDict)], .nil, by simp⟩
    | none =>
      rcases hrec : pbfRowsLoop bs cf cp kind ts rs b1 (some (cf, cp)) c1
        with ⟨c2, tr2, b2, l2, e2⟩
      rw [pbfRowsLoop_cons_ok hff hrec] at heq
      simp only [Prod.mk.injEq] at heq
      obtain ⟨rfl, rfl, rfl, rfl, rfl⟩ := heq
      have hlm1 : LastMatch b1 (some (cf, cp)) := by
        rcases hok rfl with ⟨hcl, rfl⟩ | ⟨-, rfl, rfl⟩
        · intro h; cases h rfl
        · intro _; exact ⟨cf, cp, rfl, hlast⟩
      have htr1 : PassClean tr1 := by
        rcases hok rfl with ⟨hcl, -⟩ | ⟨-, rfl, -⟩
        · exact hcl
        · exact .nil
      obtain ⟨hok2, herr2⟩ := ih b1 (some (cf, cp)) c1 hrec hlm1
      constructor
      · intro he
        obtain ⟨hcl2, hlm2⟩ := hok2 he
        exact ⟨PassClean_append htr1 hcl2, hlm2⟩
      · intro e he
        obtain ⟨t1, evs, ht1, htr2⟩ := herr2 e he
        refine ⟨tr1 ++ t1, evs, PassClean_append htr1 ht1, ?_⟩
        rw [htr2, List.append_assoc]

theorem pbfEventsLoop_shape {bs : Nat} {ef : Option String}
    {ep : Option Nat} :
    ∀ (stream : List BinlogEvent) (sf : String) (batch : List CdcEventDict)
      (last : Option (String × Nat)) (c : RunCore),
      LastMatch batch last →
      ((pbfEventsLoop bs ef ep stream sf batch last c).err = none →
        PassClean (pbfEventsLoop bs ef ep stream sf batch last c).trace ∧
        LastMatch (pbfEventsLoop bs ef ep stream sf batch last c).batch
          (pbfEventsLoop bs ef ep stream sf batch last c).last) ∧
      (∀ e, (pbfEventsLoop bs ef ep stream sf batch last c).err = some e →
        ∃ t1 evs, PassClean t1 ∧
          (pbfEventsLoop bs ef ep stream sf batch last c).trace =
            t1 ++ [TraceItem.sendBatch evs false]) := by
  intro stream
  induction stream with
  | nil =>
    intro sf batch last c hlm
    rw [pbfEventsLoop_nil]
    exact ⟨fun _ => ⟨.nil, hlm⟩, fun e he => nomatch he⟩
  | cons ev rest ih =>
    intro sf batch last c hlm
    cases hsc : stopCheck ef ep ev.file ev.packetLogPos with
    | true =>
      rw [pbfEventsLoop_cons_stop hsc]
      exact ⟨fun _ => ⟨.nil, hlm⟩, fun e he => nomatch he⟩
    | false =>
      rcases hrl : pbfRowsLoop bs ev.file ev.packetLogPos ev.kind
          ev.timestamp ev.rows batch last c with ⟨c1, tr1, b1, l1, e1⟩
      obtain ⟨hok, herr⟩ := pbfRowsLoop_shape ev.rows batch last c hrl hlm
      cases e1 with
      | some e =>
        rw [pbfEventsLoop_cons_err hsc hrl]
        refine ⟨fun h => (nomatch h), ?_⟩
        intro e2 he2
        injection he2 with he3
        subst he3
        exact herr _ rfl
      | none =>
        obtain ⟨htr1, hlm1⟩ := hok rfl
        rcases hrec : pbfEventsLoop bs ef ep rest ev.file b1 l1 c1
          with ⟨c2, tr2, b2, l2, sf2, e2⟩
        obtain ⟨hok2, herr2⟩ := ih ev.file b1 l1 c1 hlm1
        rw [hrec] at hok2 herr2
        rw [pbfEventsLoop_cons_ok hsc hrl hrec]
        constructor
        · intro he
          obtain ⟨hcl2, hlm2⟩ := hok2 he
          exact ⟨PassClean_append htr1 hcl2, hlm2⟩
        · intro e he
          obtain ⟨t1, evs, ht1, htr2⟩ := herr2 e he
          have htr2' : tr2 = t1 ++ [TraceItem.sendBatch evs false] := htr2
          refine ⟨tr1 ++ t1, evs, PassClean_append htr1 ht1, ?_⟩
          simp [htr2']

theorem finalFlush_shape {batch : List CdcEventDict}
    {last : Option (String × Nat)} {c c' : RunCore} {tr : List TraceItem}
    {e' : Option PyError} (heq : finalFlush batch last c = (c', tr, e'))
    (hlm : LastMatch batch last) :
    (e' = none → PassClean tr) ∧
    (∀ e, e' = some e → ∃ t1 evs, PassClean t1 ∧
      tr = t1 ++ [TraceItem.sendBatch evs false]) := by
  by_cases h0 : batch = []
  · subst h0
    rw [finalFlush_nil] at heq
    simp only [Prod.mk.injEq] at heq
    obtain ⟨rfl, rfl, rfl⟩ := heq
    exact ⟨fun _ => .nil, fun e he => nomatch he⟩
  · rcases hsb : send_batch c.sink c.oracle batch with ⟨s2, o2, res⟩
    cases res with
    | error e1 =>
      rw [finalFlush_err last h0 hsb] at heq
      simp only [Prod.mk.injEq] at heq
      obtain ⟨rfl, rfl, rfl⟩ := heq
      refine ⟨fun h => (nomatch h), ?_⟩
      intro e he
      exact ⟨[], batch, .nil, by simp⟩
    | ok n =>
      obtain ⟨lf, lp, hlast, hmatch⟩ := hlm h0
      subst hlast
      by_cases hcond : lf ≠ "" ∧ lp ≠ 0
      · rw [finalFlush_ok_set h0 hsb hcond] at heq
        simp only [Prod.mk.injEq] at heq
        obtain ⟨rfl, rfl, rfl⟩ := heq
        exact ⟨fun _ => .sendSet batch lf lp [] hmatch .nil,
          fun e he => nomatch he⟩
      · rw [finalFlush_ok_falsy h0 hsb hcond] at heq
        simp only [Prod.mk.injEq] at heq
        obtain ⟨rfl, rfl, rfl⟩ := heq
        exact ⟨fun _ => .send batch [] .nil, fun e he => nomatch he⟩

theorem process_binlog_file_shape (bs : Nat) (log_file : String)
    (sp : Option Nat) (ef : Option String) (ep : Option Nat)
    (stream : List BinlogEvent) (c : RunCore) :
    ((process_binlog_file bs log_file sp ef ep stream c).err = none →
      PassClean (process_binlog_file bs log_file sp ef ep stream c).trace) ∧
    (∀ e, (process_binlog_file bs log_file sp ef ep stream c).err = some e →
      ∃ t1 evs, PassClean t1 ∧
        (process_binlog_file bs log_file sp ef ep stream c).trace =
          t1 ++ [TraceItem.sendBatch evs false]) := by
  have hlm0 : LastMatch [] none := fun h => absurd rfl h
  rcases hloop : pbfEventsLoop bs ef ep stream log_file [] none c
    with ⟨c1, tr1, b1, l1, sf1, e1⟩
  obtain ⟨hok, herr⟩ := pbfEventsLoop_shape stream log_file [] none c hlm0
  rw [hloop] at hok herr
  cases e1 with
  | some e =>
    rw [process_binlog_file_eq_err hloop]
    refine ⟨fun h => (nomatch h), ?_⟩
    intro e2 he2
    injection he2 with he3
    subst he3
    exact herr _ rfl
  | none =>
    obtain ⟨htr1, hlm1⟩ := hok rfl
    rcases hffl : finalFlush b1 l1 c1 with ⟨c2, tr2, e2⟩
    obtain ⟨hok2, herr2⟩ := finalFlush_shape hffl hlm1
    cases e2 with
    | some e =>
      rw [process_binlog_file_eq_flush_err hloop hffl]
      refine ⟨fun h => (nomatch h), ?_⟩
      intro e3 he3
      injection he3 with he4
      subst he4
      obtain ⟨t1, evs, ht1, htr2⟩ := herr2 _ rfl
      refine ⟨tr1 ++ t1, evs, PassClean_append htr1 ht1, ?_⟩
      simp only [htr2, List.append_assoc]
    | none =>
      rw [process_binlog_file_eq_ok hloop hffl]
      exact ⟨fun _ => PassClean_append htr1 (hok2 rfl),
        fun e he => nomatch he⟩

theorem runFilesLoop_shape (src : SourceModel) (bs : Nat)
    (sp : Option Nat) :
    ∀ (files : List String) (isFirst : Bool) (c : RunCore),
      ((runFilesLoop src bs sp files isFirst c).err = none →
        RunClean (runFilesLoop src bs sp files isFirst c).trace) ∧
      (∀ e, (runFilesLoop src bs sp files isFirst c).err = some e →
        ∃ t1 evs, RunClean t1 ∧
          (runFilesLoop src bs sp files isFirst c).trace =
            t1 ++ [TraceItem.sendBatch evs false]) := by
  intro files
  induction files with
  | nil =>
    intro isFirst c
    rw [runFilesLoop_nil]
    exact ⟨fun _ => .nil, fun e he => nomatch he⟩
  | cons f rest ih =>
    intro isFirst c
    rcases hpass : process_binlog_file bs f (startPosFor sp isFirst c.wm f)
        (if rest = [] then some src.stopFile else none)
        (if rest = [] then some src.stopPos else none)
        (src.streamFrom f (startPosFor sp isFirst c.wm f)) c
        with ⟨c1, tr1, ic, e1⟩
    obtain ⟨hok, herr⟩ := process_binlog_file_shape bs f
      (startPosFor sp isFirst c.wm f)
      (if rest = [] then some src.stopFile else none)
      (if rest = [] then some src.stopPos else none)
      (src.streamFrom f (startPosFor sp isFirst c.wm f)) c
    rw [hpass] at hok herr
    cases e1 with
    | some e =>
      rw [runFilesLoop_cons_err hpass]
      refine ⟨fun h => (nomatch h), ?_⟩
      intro e2 he2
      injection he2 with he3
      subst he3
      obtain ⟨t1, evs, ht1, htr⟩ := herr _ rfl
      have htr' : tr1 = t1 ++ [TraceItem.sendBatch evs false] := htr
      refine ⟨.openStream f (startPosFor sp isFirst c.wm f) c.wm :: t1, evs,
        .openStream _ _ _ _ (RunClean_of_PassClean ht1), ?_⟩
      simp [htr']
    | none =>
      have htr1 : PassClean tr1 := hok rfl
      cases ic with
      | true =>
        rw [runFilesLoop_cons_done hpass]
        exact ⟨fun _ => .openStream _ _ _ _ (RunClean_of_PassClean htr1),
          fun e he => nomatch he⟩
      | false =>
        rcases hrec : runFilesLoop src bs sp rest false c1
          with ⟨c2, tr2, e2⟩
        obtain ⟨hok2, herr2⟩ := ih false c1
        rw [hrec] at hok2 herr2
        rw [runFilesLoop_cons_cont hpass hrec]
        constructor
        · intro he
          exact .openStream _ _ _ _
            (RunClean_append (RunClean_of_PassClean htr1) (hok2 he))
        · intro e he
          obtain ⟨t1, evs, ht1, htr2⟩ := herr2 e he
          have htr2' : tr2 = t1 ++ [TraceItem.sendBatch evs false] := htr2
          refine ⟨.openStream f (startPosFor sp isFirst c.wm f) c.wm ::
            (tr1 ++ t1), evs,
            .openStream _ _ _ _
              (RunClean_append (RunClean_of_PassClean htr1) ht1), ?_⟩
          simp [htr2']

/-! ### Watermark consistency: the final store state is the fold of the
traced watermark writes. -/

/-- Replay the watermark writes recorded in a trace. -/
def applyTraceWm (w : Option WatermarkRecord) (tr : List TraceItem) :
    Option WatermarkRecord :=
  tr.foldl (fun w item =>
    match item with
    | .setWm f p => (set_watermark w f p).1
    | .markComplete => some (mark_backfill_complete w)
    | _ => w) w

theorem applyTraceWm_append (w : Option WatermarkRecord)
    (t1 t2 : List TraceItem) :
    applyTraceWm w (t1 ++ t2) = applyTraceWm (applyTraceWm w t1) t2 :=
  List.foldl_append _ _ _ _

theorem flushFull_wm {bs : Nat} {cf : String} {cp : Nat}
    {batch : List CdcEventDict} {c c' : RunCore} {tr : List TraceItem}
    {b' : List CdcEventDict} {e' : Option PyError}
    (heq : flushFull bs cf cp batch c = (c', tr, b', e')) :
    c'.wm = applyTraceWm c.wm tr := by
  by_cases hfull : bs ≤ batch.length
  · rcases hsb : send_batch c.sink c.oracle batch with ⟨s2, o2, res⟩
    cases res with
    | error e1 =>
      rw [flushFull_full_err cf cp c hfull hsb] at heq
      simp only [Prod.mk.injEq] at heq
      obtain ⟨rfl, rfl, rfl, rfl⟩ := heq
      rfl
    | ok n =>
      rw [flushFull_full_ok cf cp c hfull hsb] at heq
      simp only [Prod.mk.injEq] at heq
      obtain ⟨rfl, rfl, rfl, rfl⟩ := heq
      rfl
  · rw [flushFull_not_full cf cp c hfull] at heq
    simp only [Prod.mk.injEq] at heq
    obtain ⟨rfl, rfl, rfl, rfl⟩ := heq
    rfl

theorem pbfRowsLoop_wm {bs : Nat} {cf : String} {cp : Nat}
    {kind : EventKind} {ts : Nat} :
    ∀ (rows : List RawRow) (batch : List CdcEventDict)
      (last : Option (String × Nat)) (c : RunCore) {c' : RunCore}
      {tr : List TraceItem} {b' : List CdcEventDict}
      {l' : Option (String × Nat)} {e' : Option PyError},
      pbfRowsLoop bs cf cp kind ts rows batch last c = (c', tr, b', l', e') →
      c'.wm = applyTraceWm c.wm tr := by
  intro rows
  induction rows with
  | nil =>
    intro batch last c c' tr b' l' e' heq
    rw [pbfRowsLoop_nil] at heq
    simp only [Prod.mk.injEq] at heq
    obtain ⟨rfl, rfl, rfl, rfl, rfl⟩ := heq
    rfl
  | cons r rs ih =>
    intro batch last c c' tr b' l' e' heq
    rcases hff : flushFull bs cf cp (batch ++
        [(⟨some (kindName kind), some (.tsInt ts), some cf, some cp,
          rowToData kind r⟩ : CdcEventDict)]) c with ⟨c1, tr1, b1, e1⟩
    have h1 := flushFull_wm hff
    cases e1 with
    | some e =>
      rw [pbfRowsLoop_cons_err hff] at heq
      simp only [Prod.mk.injEq] at heq
      obtain ⟨rfl, rfl, rfl, rfl, rfl⟩ := heq
      exact h1
    | none =>
      rcases hrec : pbfRowsLoop bs cf cp kind ts rs b1 (some (cf, cp)) c1
        with ⟨c2, tr2, b2, l2, e2⟩
      rw [pbfRowsLoop_cons_ok hff hrec] at heq
      simp only [Prod.mk.injEq] at heq
      obtain ⟨rfl, rfl, rfl, rfl, rfl⟩ := heq
      rw [applyTraceWm_append, ← h1]
      exact ih b1 (some (cf, cp)) c1 hrec

theorem pbfEventsLoop_wm (bs : Nat) (ef : Option String) (ep : Option Nat) :
    ∀ (stream : List BinlogEvent) (sf : String) (batch : List CdcEventDict)
      (last : Option (String × Nat)) (c : RunCore),
      (pbfEventsLoop bs ef ep stream sf batch last c).core.wm =
        applyTraceWm c.wm (pbfEventsLoop bs ef ep stream sf batch last c).trace := by
  intro stream
  induction stream with
  | nil =>
    intro sf batch last c
    rw [pbfEventsLoop_nil]
    rfl
  | cons ev rest ih =>
    intro sf batch last c
    cases hsc : stopCheck ef ep ev.file ev.packetLogPos with
    | true =>
      rw [pbfEventsLoop_cons_stop hsc]
      rfl
    | false =>
      rcases hrl : pbfRowsLoop bs ev.file ev.packetLogPos ev.kind
          ev.timestamp ev.rows batch last c with ⟨c1, tr1, b1, l1, e1⟩
      have h1 := pbfRowsLoop_wm ev.rows batch last c hrl
      cases e1 with
      | some e =>
        rw [pbfEventsLoop_cons_err hsc hrl]
        exact h1
      | none =>
        rcases hrec : pbfEventsLoop bs ef ep rest ev.file b1 l1 c1
          with ⟨c2, tr2, b2, l2, sf2, e2⟩
        have h2 := ih ev.file b1 l1 c1
        rw [hrec] at h2
        rw [pbfEventsLoop_cons_ok hsc hrl hrec]
        rw [applyTraceWm_append, ← h1]
        exact h2

theorem finalFlush_wm {batch : List CdcEventDict}
    {last : Option (String × Nat)} {c c' : RunCore} {tr : List TraceItem}
    {e' : Option PyError} (heq : finalFlush batch last c = (c', tr, e')) :
    c'.wm = applyTraceWm c.wm tr := by
  by_cases h0 : batch = []
  · subst h0
    rw [finalFlush_nil] at heq
    simp only [Prod.mk.injEq] at heq
    obtain ⟨rfl, rfl, rfl⟩ := heq
    rfl
  · rcases hsb : send_batch c.sink c.oracle batch with ⟨s2, o2, res⟩
    cases res with
    | error e1 =>
      rw [finalFlush_err last h0 hsb] at heq
      simp only [Prod.mk.injEq] at heq
      obtain ⟨rfl, rfl, rfl⟩ := heq
      rfl
    | ok n =>
      cases last with
      | none =>
        rw [finalFlush_ok_none h0 hsb] at heq
        simp only [Prod.mk.injEq] at heq
        obtain ⟨rfl, rfl, rfl⟩ := heq
        rfl
      | some lfp =>
        rcases lfp with ⟨lf, lp⟩
        by_cases hcond : lf ≠ "" ∧ lp ≠ 0
        · rw [finalFlush_ok_set h0 hsb hcond] at heq
          simp only [Prod.mk.injEq] at heq
          obtain ⟨rfl, rfl, rfl⟩ := heq
          rfl
        · rw [finalFlush_ok_falsy h0 hsb hcond] at heq
          simp only [Prod.mk.injEq] at heq
          obtain ⟨rfl, rfl, rfl⟩ := heq
          rfl

theorem process_binlog_file_wm (bs : Nat) (log_file : String)
    (sp : Option Nat) (ef : Option String) (ep : Option Nat)
    (stream : List BinlogEvent) (c : RunCore) :
    (process_binlog_file bs log_file sp ef ep stream c).core.wm =
      applyTraceWm c.wm
        (process_binlog_file bs log_file sp ef ep stream c).trace := by
  rcases hloop : pbfEventsLoop bs ef ep stream log_file [] none c
    with ⟨c1, tr1, b1, l1, sf1, e1⟩
  have h1 := pbfEventsLoop_wm bs ef ep stream log_file [] none c
  rw [hloop] at h1
  cases e1 with
  | some e =>
    rw [process_binlog_file_eq_err hloop]
    exact h1
  | none =>
    rcases hffl : finalFlush b1 l1 c1 with ⟨c2, tr2, e2⟩
    have h2 := finalFlush_wm hffl
    cases e2 with
    | some e =>
      rw [process_binlog_file_eq_flush_err hloop hffl]
      rw [applyTraceWm_append, ← h1]
      exact h2
    | none =>
      rw [process_binlog_file_eq_ok hloop hffl]
      rw [applyTraceWm_append, ← h1]
      exact h2

theorem runFilesLoop_wm (src : SourceModel) (bs : Nat) (sp : Option Nat) :
    ∀ (files : List String) (isFirst : Bool) (c : RunCore),
      (runFilesLoop src bs sp files isFirst c).core.wm =
        applyTraceWm c.wm (runFilesLoop src bs sp files isFirst c).trace := by
  intro files
  induction files with
  | nil =>
    intro isFirst c
    rw [runFilesLoop_nil]
    rfl
  | cons f rest ih =>
    intro isFirst c
    rcases hpass : process_binlog_file bs f (startPosFor sp isFirst c.wm f)
        (if rest = [] then some src.stopFile else none)
        (if rest = [] then some src.stopPos else none)
        (src.streamFrom f (startPosFor sp isFirst c.wm f)) c
        with ⟨c1, tr1, ic, e1⟩
    have h1 := process_binlog_file_wm bs f (startPosFor sp isFirst c.wm f)
      (if rest = [] then some src.stopFile else none)
      (if rest = [] then some src.stopPos else none)
      (src.streamFrom f (startPosFor sp isFirst c.wm f)) c
    rw [hpass] at h1
    cases e1 with
    | some e =>
      rw [runFilesLoop_cons_err hpass]
      exact h1
    | none =>
      cases ic with
      | true =>
        rw [runFilesLoop_cons_done hpass]
        exact h1
      | false =>
        rcases hrec : runFilesLoop src bs sp rest false c1
          with ⟨c2, tr2, e2⟩
        have h2 := ih false c1
        rw [hrec] at h2
        rw [runFilesLoop_cons_cont hpass hrec]
        show c2.wm = applyTraceWm c.wm (.openStream f _ c.wm :: (tr1 ++ tr2))
        rw [show applyTraceWm c.wm (.openStream f (startPosFor sp isFirst
          c.wm f) c.wm :: (tr1 ++ tr2)) =
          applyTraceWm c.wm (tr1 ++ tr2) from rfl]
        rw [applyTraceWm_append, ← h1]
        exact h2

theorem backfillRowsLoop_nil (bs T : Nat) (lf : String) (lp : Nat)
    (batch : List CdcEventDict) (c : RunCore) :
    backfillRowsLoop bs T lf lp [] batch c = (c, [], batch, none) :=
  rfl

theorem backfillRowsLoop_cons_nofull {bs T : Nat} {lf : String} {lp : Nat}
    {r : RowMap} {rs : List RowMap} {batch : List CdcEventDict} {c : RunCore}
    (h : ¬ bs ≤ (batch ++ [mkBackfillEvent T lf lp r]).length) :
    backfillRowsLoop bs T lf lp (r :: rs) batch c =
      backfillRowsLoop bs T lf lp rs (batch ++ [mkBackfillEvent T lf lp r])
        c := by
  have h' : ¬ bs ≤ batch.length + 1 := by simpa using h
  simp [backfillRowsLoop, h']

theorem backfillRowsLoop_cons_err {bs T : Nat} {lf : String} {lp : Nat}
    {r : RowMap} {rs : List RowMap} {batch : List CdcEventDict} {c : RunCore}
    {s' : List ProcessedRecord} {o' : List Bool} {e : PyError}
    (h : bs ≤ (batch ++ [mkBackfillEvent T lf lp r]).length)
    (hsb : send_batch c.sink c.oracle (batch ++ [mkBackfillEvent T lf lp r]) =
      (s', o', .error e)) :
    backfillRowsLoop bs T lf lp (r :: rs) batch c =
      ({c with sink := s', oracle := o'},
        [.sendBatch (batch ++ [mkBackfillEvent T lf lp r]) false],
        batch ++ [mkBackfillEvent T lf lp r], some e) := by
  have h' : bs ≤ batch.length + 1 := by simpa using h
  simp [backfillRowsLoop, h', hsb]

theorem backfillRowsLoop_cons_ok {bs T : Nat} {lf : String} {lp : Nat}
    {r : RowMap} {rs : List RowMap} {batch : List CdcEventDict} {c : RunCore}
    {s' : List ProcessedRecord} {o' : List Bool} {n : Nat} {c2 : RunCore}
    {tr2 : List TraceItem} {b2 : List CdcEventDict} {e2 : Option PyError}
    (h : bs ≤ (batch ++ [mkBackfillEvent T lf lp r]).length)
    (hsb : send_batch c.sink c.oracle (batch ++ [mkBackfillEvent T lf lp r]) =
      (s', o', .ok n))
    (hrec : backfillRowsLoop bs T lf lp rs []
      {c with sink := s', oracle := o'} = (c2, tr2, b2, e2)) :
    backfillRowsLoop bs T lf lp (r :: rs) batch c =
      (c2, .sendBatch (batch ++ [mkBackfillEvent T lf lp r]) true :: tr2,
        b2, e2) := by
  have h' : bs ≤ batch.length + 1 := by simpa using h
  simp [backfillRowsLoop, h', hsb, hrec]

theorem backfillRowsLoop_items {bs T : Nat} {lf : String} {lp : Nat} :
    ∀ (rows : List RowMap) (batch : List CdcEventDict) (c : RunCore)
      {c' : RunCore} {tr : List TraceItem} {b' : List CdcEventDict}
      {e' : Option PyError},
      backfillRowsLoop bs T lf lp rows batch c = (c', tr, b', e') →
      (e' = none → ∀ item ∈ tr, ∃ evs, item = TraceItem.sendBatch evs true) ∧
      (∀ e, e' = some e → ∃ t1 evs,
        (∀ item ∈ t1, ∃ evs2, item = TraceItem.sendBatch evs2 true) ∧
        tr = t1 ++ [TraceItem.sendBatch evs false]) := by
  intro rows
  induction rows with
  | nil =>
    intro batch c c' tr b' e' heq
    rw [backfillRowsLoop_nil] at heq
    simp only [Prod.mk.injEq] at heq
    obtain ⟨rfl, rfl, rfl, rfl⟩ := heq
    exact ⟨fun _ item hmem => absurd hmem (List.not_mem_nil _),
      fun e he => nomatch he⟩
  | cons r rs ih =>
    intro batch c c' tr b' e' heq
    by_cases hfull : bs ≤ (batch ++ [mkBackfillEvent T lf lp r]).length
    · rcases hsb : send_batch c.sink c.oracle
          (batch ++ [mkBackfillEvent T lf lp r]) with ⟨s2, o2, res⟩
      cases res with
      | error e1 =>
        rw [backfillRowsLoop_cons_err hfull hsb] at heq
        simp only [Prod.mk.injEq] at heq
        obtain ⟨rfl, rfl, rfl, rfl⟩ := heq
        refine ⟨fun h => (nomatch h), ?_⟩
        intro e he
        exact ⟨[], batch ++ [mkBackfillEvent T lf lp r], by simp, by simp⟩
      | ok n =>
        rcases hrec : backfillRowsLoop bs T lf lp rs []
            {c with sink := s2, oracle := o2} with ⟨c2, tr2, b2, e2⟩
        rw [backfillRowsLoop_cons_ok hfull hsb hrec] at heq
        simp only [Prod.mk.injEq] at heq
        obtain ⟨rfl, rfl, rfl, rfl⟩ := heq
        obtain ⟨hok2, herr2⟩ := ih [] {c with sink := s2, oracle := o2} hrec
        constructor
        · intro he item hmem
          rcases List.mem_cons.mp hmem with hmem | hmem
          · exact ⟨batch ++ [mkBackfillEvent T lf lp r], hmem⟩
          · exact hok2 he item hmem
        · intro e he
          obtain ⟨t1, evs, ht1, htr2⟩ := herr2 e he
          refine ⟨.sendBatch (batch ++ [mkBackfillEvent T lf lp r]) true ::
            t1, evs, ?_, by simp [htr2]⟩
          intro item hmem
          rcases List.mem_cons.mp hmem with hmem | hmem
          · exact ⟨batch ++ [mkBackfillEvent T lf lp r], hmem⟩
          · exact ht1 item hmem
    · rw [backfillRowsLoop_cons_nofull hfull] at heq
      exact ih (batch ++ [mkBackfillEvent T lf lp r]) c heq

theorem backfill_table_eq_loop_err {bs T : Nat} {stopF : String}
    {stopP : Nat} {rows : List RowMap} {c : RunCore} {c1 : RunCore}
    {tr : List TraceItem} {b : List CdcEventDict} {e : PyError}
    (hloop : backfillRowsLoop bs T stopF stopP rows [] c =
      (c1, tr, b, some e)) :
    backfill_table bs T stopF stopP rows c = ⟨c1, tr, some e⟩ := by
  simp [backfill_table, hloop]

theorem backfill_table_eq_empty {bs T : Nat} {stopF : String} {stopP : Nat}
    {rows : List RowMap} {c : RunCore} {c1 : RunCore} {tr : List TraceItem}
    (hloop : backfillRowsLoop bs T stopF stopP rows [] c =
      (c1, tr, [], none)) :
    backfill_table bs T stopF stopP rows c =
      ⟨⟨c1.sink,
        some (mark_backfill_complete (set_watermark c1.wm stopF stopP).1),
        c1.oracle⟩, tr ++ [.setWm stopF stopP, .markComplete], none⟩ := by
  simp [backfill_table, hloop, mark_backfill_complete]

theorem backfill_table_eq_flush_err {bs T : Nat} {stopF : String}
    {stopP : Nat} {rows : List RowMap} {c : RunCore} {c1 : RunCore}
    {tr : List TraceItem} {batch : List CdcEventDict}
    {s' : List ProcessedRecord} {o' : List Bool} {e : PyError}
    (hloop : backfillRowsLoop bs T stopF stopP rows [] c =
      (c1, tr, batch, none)) (hne : batch ≠ [])
    (hsb : send_batch c1.sink c1.oracle batch = (s', o', .error e)) :
    backfill_table bs T stopF stopP rows c =
      ⟨{c1 with sink := s', oracle := o'}, tr ++ [.sendBatch batch false],
        some e⟩ := by
  simp [backfill_table, hloop, hne, hsb]

theorem backfill_table_eq_flush_ok {bs T : Nat} {stopF : String}
    {stopP : Nat} {rows : List RowMap} {c : RunCore} {c1 : RunCore}
    {tr : List TraceItem} {batch : List CdcEventDict}
    {s' : List ProcessedRecord} {o' : List Bool} {n : Nat}
    (hloop : backfillRowsLoop bs T stopF stopP rows [] c =
      (c1, tr, batch, none)) (hne : batch ≠ [])
    (hsb : send_batch c1.sink c1.oracle batch = (s', o', .ok n)) :
    backfill_table bs T stopF stopP rows c =
      ⟨⟨s', some (mark_backfill_complete (set_watermark c1.wm stopF stopP).1),
        o'⟩,
        tr ++ [.sendBatch batch true, .setWm stopF stopP, .markComplete],
        none⟩ := by
  simp [backfill_table, hloop, hne, hsb, mark_backfill_complete]

theorem backfill_table_ordering (bs T : Nat) (stopF : String) (stopP : Nat)
    (rows : List RowMap) (c : RunCore) :
    ((∃ g q, TraceItem.setWm g q ∈
        (backfill_table bs T stopF stopP rows c).trace) ∨
      TraceItem.markComplete ∈
        (backfill_table bs T stopF stopP rows c).trace) →
    ∀ evs b, TraceItem.sendBatch evs b ∈
      (backfill_table bs T stopF stopP rows c).trace → b = true := by
  rcases hloop : backfillRowsLoop bs T stopF stopP rows [] c
    with ⟨c1, tr, batch, e1⟩
  obtain ⟨hok, herr⟩ := backfillRowsLoop_items rows [] c hloop
  cases e1 with
  | some e =>
    rw [backfill_table_eq_loop_err hloop]
    obtain ⟨t1, evs0, ht1, htr⟩ := herr e rfl
    intro hhyp
    exfalso
    rcases hhyp with ⟨g, q, hmem⟩ | hmem
    · rw [htr] at hmem
      rcases List.mem_append.mp hmem with hmem | hmem
      · obtain ⟨evs2, heq2⟩ := ht1 _ hmem
        cases heq2
      · simp only [List.mem_singleton] at hmem
        cases hmem
    · rw [htr] at hmem
      rcases List.mem_append.mp hmem with hmem | hmem
      · obtain ⟨evs2, heq2⟩ := ht1 _ hmem
        cases heq2
      · simp only [List.mem_singleton] at hmem
        cases hmem
  | none =>
    have htr : ∀ item ∈ tr, ∃ evs, item = TraceItem.sendBatch evs true :=
      hok rfl
    by_cases hbe : batch = []
    · subst hbe
      rw [backfill_table_eq_empty hloop]
      intro _ evs b hmem
      rcases List.mem_append.mp hmem with hmem | hmem
      · obtain ⟨evs2, heq2⟩ := htr _ hmem
        injection heq2 with h1 h2
      · simp only [List.mem_cons, List.not_mem_nil, or_false] at hmem
        rcases hmem with hmem | hmem <;> cases hmem
    · rcases hsb : send_batch c1.sink c1.oracle batch with ⟨s2, o2, res⟩
      cases res with
      | error e1 =>
        rw [backfill_table_eq_flush_err hloop hbe hsb]
        intro hhyp
        exfalso
        rcases hhyp with ⟨g, q, hmem⟩ | hmem
        · rcases List.mem_append.mp hmem with hmem | hmem
          · obtain ⟨evs2, heq2⟩ := htr _ hmem
            cases heq2
          · simp only [List.mem_singleton] at hmem
            cases hmem
        · rcases List.mem_append.mp hmem with hmem | hmem
          · obtain ⟨evs2, heq2⟩ := htr _ hmem
            cases heq2
          · simp only [List.mem_singleton] at hmem
            cases hmem
      | ok n =>
        rw [backfill_table_eq_flush_ok hloop hbe hsb]
        intro _ evs b hmem
        rcases List.mem_append.mp hmem with hmem | hmem
        · obtain ⟨evs2, heq2⟩ := htr _ hmem
          injection heq2 with h1 h2
        · simp only [List.mem_cons, List.not_mem_nil, or_false] at hmem
          rcases hmem with hmem | hmem | hmem
          · injection hmem with h1 h2
          · cases hmem
          · cases hmem

theorem run_cdc_worker_wm (src : SourceModel) (bs : Nat) (c : RunCore) :
    (run_cdc_worker src bs c).core.wm =
      applyTraceWm c.wm (run_cdc_worker src bs c).trace := by
  cases hsf : (get_watermark c.wm).log_file with
  | none =>
    rw [run_cdc_worker_eq_init_none hsf]
    rfl
  | some sf =>
    by_cases hne : sf = ""
    · subst hne
      rw [run_cdc_worker_eq_init_empty hsf]
      rfl
    · cases hsi : (get_binlog_files src.binlogRows).findIdx?
          (fun x => decide (x = sf)) with
      | none =>
        rw [run_cdc_worker_eq_gapped_left hsf hne hsi]
        rfl
      | some si =>
        cases hpi : (get_binlog_files src.binlogRows).findIdx?
            (fun x => decide (x = src.stopFile)) with
        | none =>
          rw [run_cdc_worker_eq_gapped_right hsf hne hsi hpi]
          rfl
        | some pi =>
          rw [run_cdc_worker_eq_main hsf hne hsi hpi]
          exact runFilesLoop_wm src bs (get_watermark c.wm).log_pos _ true c

/-- C4: in a live run entered with a non-empty watermark, the trace is a
sequence of successful `send_batch` calls, each `set_watermark` occurring
immediately after the successful send of its batch and carrying the last
batched event's position (`RunShape`/`RunClean`); a failed send is the
final trace item, so no watermark write follows it.  The final watermark
store state is exactly the fold of the traced watermark writes, so on
failure it remains at the last successfully advanced value.  On the
backfill path, `set_watermark` and `mark_backfill_complete` appear in the
trace only when every batch append succeeded. -/
theorem C4_watermark_after_durable_append (src : SourceModel) (bs : Nat)
    (c : RunCore) (sf : String)
    (hsf : (get_watermark c.wm).log_file = some sf) (hne : sf ≠ "") :
    RunShape (run_cdc_worker src bs c).trace ∧
    (run_cdc_worker src bs c).core.wm =
      applyTraceWm c.wm (run_cdc_worker src bs c).trace ∧
    (∀ bs2 T stopF stopP rows cb,
      ((∃ g q, TraceItem.setWm g q ∈
          (backfill_table bs2 T stopF stopP rows cb).trace) ∨
        TraceItem.markComplete ∈
          (backfill_table bs2 T stopF stopP rows cb).trace) →
      ∀ evs b, TraceItem.sendBatch evs b ∈
        (backfill_table bs2 T stopF stopP rows cb).trace → b = true) := by
  refine ⟨?_, run_cdc_worker_wm src bs c,
    fun bs2 T stopF stopP rows cb =>
      backfill_table_ordering bs2 T stopF stopP rows cb⟩
  cases hsi : (get_binlog_files src.binlogRows).findIdx?
      (fun x => decide (x = sf)) with
  | none =>
    rw [run_cdc_worker_eq_gapped_left hsf hne hsi]
    exact Or.inl .nil
  | some si =>
    cases hpi : (get_binlog_files src.binlogRows).findIdx?
        (fun x => decide (x = src.stopFile)) with
    | none =>
      rw [run_cdc_worker_eq_gapped_right hsf hne hsi hpi]
      exact Or.inl .nil
    | some pi =>
      rw [run_cdc_worker_eq_main hsf hne hsi hpi]
      obtain ⟨hok, herr⟩ := runFilesLoop_shape src bs
        (get_watermark c.wm).log_pos
        (((get_binlog_files src.binlogRows).take (pi + 1)).drop si) true c
      cases he : (runFilesLoop src bs (get_watermark c.wm).log_pos
          (((get_binlog_files src.binlogRows).take (pi + 1)).drop si) true
          c).err with
      | none => exact Or.inl (hok he)
      | some e =>
        obtain ⟨t1, evs, ht1, htr⟩ := herr e he
        exact Or.inr ⟨t1, evs, ht1, htr⟩

/-- C4 witness: the single-file run of the C3 witness (whose trace holds a
successful send followed by its watermark write) satisfies the shape and
watermark-fold properties, and on a concrete one-row backfill whose trace
contains `markComplete`, the traced batch send is indeed successful. -/
theorem C4_watermark_after_durable_append_witness :
    RunShape (run_cdc_worker
      ⟨"mysql-bin.000001", 100, [⟨"mysql-bin.000001"⟩],
        fun f _ => if f = "mysql-bin.000001" then
          [⟨.write, "mysql-bin.000001", 50, 7,
            [⟨some [("id", .pyInt 1)], none⟩]⟩,
           ⟨.write, "mysql-bin.000001", 100, 8,
            [⟨some [("id", .pyInt 2)], none⟩]⟩]
        else []⟩
      100 ⟨[], some ⟨some "mysql-bin.000001", some 4, true⟩, []⟩).trace ∧
    (run_cdc_worker
      ⟨"mysql-bin.000001", 100, [⟨"mysql-bin.000001"⟩],
        fun f _ => if f = "mysql-bin.000001" then
          [⟨.write, "mysql-bin.000001", 50, 7,
            [⟨some [("id", .pyInt 1)], none⟩]⟩,
           ⟨.write, "mysql-bin.000001", 100, 8,
            [⟨some [("id", .pyInt 2)], none⟩]⟩]
        else []⟩
      100 ⟨[], some ⟨some "mysql-bin.000001", some 4, true⟩, []⟩).core.wm =
      applyTraceWm (some ⟨some "mysql-bin.000001", some 4, true⟩)
        (run_cdc_worker
          ⟨"mysql-bin.000001", 100, [⟨"mysql-bin.000001"⟩],
            fun f _ => if f = "mysql-bin.000001" then
              [⟨.write, "mysql-bin.000001", 50, 7,
                [⟨some [("id", .pyInt 1)], none⟩]⟩,
               ⟨.write, "mysql-bin.000001", 100, 8,
                [⟨some [("id", .pyInt 2)], none⟩]⟩]
            else []⟩
          100 ⟨[], some ⟨some "mysql-bin.000001", some 4, true⟩, []⟩).trace ∧
    (true : Bool) = true := by
  obtain ⟨h1, h2, h3⟩ := C4_watermark_after_durable_append
    ⟨"mysql-bin.000001", 100, [⟨"mysql-bin.000001"⟩],
      fun f _ => if f = "mysql-bin.000001" then
        [⟨.write, "mysql-bin.000001", 50, 7,
          [⟨some [("id", .pyInt 1)], none⟩]⟩,
         ⟨.write, "mysql-bin.000001", 100, 8,
          [⟨some [("id", .pyInt 2)], none⟩]⟩]
      else []⟩
    100 ⟨[], some ⟨some "mysql-bin.000001", some 4, true⟩, []⟩
    "mysql-bin.000001" rfl (by decide)
  refine ⟨h1, h2, ?_⟩
  exact h3 2 7 "mysql-bin.000002" 120 [[("id", .pyInt 1)]] ⟨[], none, []⟩
    (Or.inr (by decide))
    [mkBackfillEvent 7 "mysql-bin.000002" 120 [("id", .pyInt 1)]] true
    (by decide)

/-! ## C6: per-file start positions -/

/-- The `openStream` records of a trace, in order: the file opened, the
start position passed to the reader, and the watermark-store state at that
moment. -/
def opensOf (tr : List TraceItem) :
    List (String × Option Nat × Option WatermarkRecord) :=
  tr.filterMap fun item =>
    match item with
    | .openStream f s w => some (f, s, w)
    | _ => none

theorem opensOf_append (t1 t2 : List TraceItem) :
    opensOf (t1 ++ t2) = opensOf t1 ++ opensOf t2 :=
  List.filterMap_append _ _ _

theorem opensOf_passClean {t : List TraceItem} (h : PassClean t) :
    opensOf t = [] := by
  induction h with
  | nil => rfl
  | send evs rest _ ih => simpa [opensOf, List.filterMap_cons] using ih
  | sendSet evs f p rest hlast _ ih =>
    simpa [opensOf, List.filterMap_cons] using ih

theorem opensOf_pass (bs : Nat) (log_file : String) (sp : Option Nat)
    (ef : Option String) (ep : Option Nat) (stream : List BinlogEvent)
    (c : RunCore) :
    opensOf (process_binlog_file bs log_file sp ef ep stream c).trace = [] := by
  obtain ⟨hok, herr⟩ := process_binlog_file_shape bs log_file sp ef ep
    stream c
  cases he : (process_binlog_file bs log_file sp ef ep stream c).err with
  | none => exact opensOf_passClean (hok he)
  | some e =>
    obtain ⟨t1, evs, ht1, htr⟩ := herr e he
    rw [htr, opensOf_append, opensOf_passClean ht1]
    rfl

theorem startPosFor_false (sp : Option Nat) (wm : Option WatermarkRecord)
    (f : String) :
    startPosFor sp false wm f =
      (if (get_watermark wm).log_file = some f then (get_watermark wm).log_pos
        else some 4) := rfl

theorem startPosFor_true (sp : Option Nat) (wm : Option WatermarkRecord)
    (f : String) : startPosFor sp true wm f = sp := rfl

theorem runFilesLoop_opens_false (src : SourceModel) (bs : Nat)
    (sp : Option Nat) :
    ∀ (files : List String) (c : RunCore),
      ∀ y ∈ opensOf (runFilesLoop src bs sp files false c).trace,
        y.2.1 = (if (get_watermark y.2.2).log_file = some y.1
          then (get_watermark y.2.2).log_pos else some 4) := by
  intro files
  induction files with
  | nil =>
    intro c y hy
    rw [runFilesLoop_nil] at hy
    cases hy
  | cons f rest ih =>
    intro c y hy
    rcases hpass : process_binlog_file bs f (startPosFor sp false c.wm f)
        (if rest = [] then some src.stopFile else none)
        (if rest = [] then some src.stopPos else none)
        (src.streamFrom f (startPosFor sp false c.wm f)) c
        with ⟨c1, tr1, ic, e1⟩
    have hop : opensOf tr1 = [] := by
      have := opensOf_pass bs f (startPosFor sp false c.wm f)
        (if rest = [] then some src.stopFile else none)
        (if rest = [] then some src.stopPos else none)
        (src.streamFrom f (startPosFor sp false c.wm f)) c
      rw [hpass] at this
      exact this
    have hhead : ∀ z ∈ opensOf [TraceItem.openStream f
        (startPosFor sp false c.wm f) c.wm], z.2.1 =
        (if (get_watermark z.2.2).log_file = some z.1
          then (get_watermark z.2.2).log_pos else some 4) := by
      intro z hz
      simp only [opensOf, List.filterMap_cons, List.filterMap_nil] at hz
      simp only [List.mem_singleton] at hz
      subst hz
      exact startPosFor_false sp c.wm f
    cases e1 with
    | some e =>
      rw [runFilesLoop_cons_err hpass] at hy
      rw [show (TraceItem.openStream f (startPosFor sp false c.wm f) c.wm ::
        tr1 : List TraceItem) = [TraceItem.openStream f
          (startPosFor sp false c.wm f) c.wm] ++ tr1 from rfl,
        opensOf_append, hop] at hy
      rw [List.append_nil] at hy
      exact hhead y hy
    | none =>
      cases ic with
      | true =>
        rw [runFilesLoop_cons_done hpass] at hy
        rw [show (TraceItem.openStream f (startPosFor sp false c.wm f) c.wm ::
          tr1 : List TraceItem) = [TraceItem.openStream f
            (startPosFor sp false c.wm f) c.wm] ++ tr1 from rfl,
          opensOf_append, hop] at hy
        rw [List.append_nil] at hy
        exact hhead y hy
      | false =>
        rcases hrec : runFilesLoop src bs sp rest false c1
          with ⟨c2, tr2, e2⟩
        rw [runFilesLoop_cons_cont hpass hrec] at hy
        rw [show (TraceItem.openStream f (startPosFor sp false c.wm f) c.wm ::
          (tr1 ++ tr2) : List TraceItem) = [TraceItem.openStream f
            (startPosFor sp false c.wm f) c.wm] ++ (tr1 ++ tr2) from rfl,
          opensOf_append, opensOf_append, hop] at hy
        simp only [List.nil_append] at hy
        rcases List.mem_append.mp hy with hy | hy
        · exact hhead y hy
        · have := ih c1 y
          rw [hrec] at this
          exact this hy

theorem runFilesLoop_opens_cons (src : SourceModel) (bs : Nat)
    (sp : Option Nat) (f : String) (rest : List String) (isFirst : Bool)
    (c : RunCore) :
    ∃ tail,
      opensOf (runFilesLoop src bs sp (f :: rest) isFirst c).trace =
        (f, startPosFor sp isFirst c.wm f, c.wm) :: tail ∧
      ∀ y ∈ tail, y.2.1 = (if (get_watermark y.2.2).log_file = some y.1
        then (get_watermark y.2.2).log_pos else some 4) := by
  rcases hpass : process_binlog_file bs f (startPosFor sp isFirst c.wm f)
      (if rest = [] then some src.stopFile else none)
      (if rest = [] then some src.stopPos else none)
      (src.streamFrom f (startPosFor sp isFirst c.wm f)) c
      with ⟨c1, tr1, ic, e1⟩
  have hop : opensOf tr1 = [] := by
    have := opensOf_pass bs f (startPosFor sp isFirst c.wm f)
      (if rest = [] then some src.stopFile else none)
      (if rest = [] then some src.stopPos else none)
      (src.streamFrom f (startPosFor sp isFirst c.wm f)) c
    rw [hpass] at this
    exact this
  cases e1 with
  | some e =>
    refine ⟨[], ?_, fun y hy => absurd hy (List.not_mem_nil _)⟩
    rw [runFilesLoop_cons_err hpass]
    rw [show (TraceItem.openStream f (startPosFor sp isFirst c.wm f) c.wm ::
      tr1 : List TraceItem) = [TraceItem.openStream f
        (startPosFor sp isFirst c.wm f) c.wm] ++ tr1 from rfl,
      opensOf_append, hop]
    rfl
  | none =>
    cases ic with
    | true =>
      refine ⟨[], ?_, fun y hy => absurd hy (List.not_mem_nil _)⟩
      rw [runFilesLoop_cons_done hpass]
      rw [show (TraceItem.openStream f (startPosFor sp isFirst c.wm f) c.wm ::
        tr1 : List TraceItem) = [TraceItem.openStream f
          (startPosFor sp isFirst c.wm f) c.wm] ++ tr1 from rfl,
        opensOf_append, hop]
      rfl
    | false =>
      rcases hrec : runFilesLoop src bs sp rest false c1
        with ⟨c2, tr2, e2⟩
      refine ⟨opensOf tr2, ?_, ?_⟩
      · rw [runFilesLoop_cons_cont hpass hrec]
        rw [show (TraceItem.openStream f (startPosFor sp isFirst c.wm f)
          c.wm :: (tr1 ++ tr2) : List TraceItem) = [TraceItem.openStream f
            (startPosFor sp isFirst c.wm f) c.wm] ++ (tr1 ++ tr2) from rfl,
          opensOf_append, opensOf_append, hop]
        rfl
      · intro y hy
        have := runFilesLoop_opens_false src bs sp rest c1 y
        rw [hrec] at this
        exact this hy

/-- C6: in a live run, the first `openStream` uses the run-start
watermark's `log_position` (and records the run-start store state); every
later `openStream` uses the re-read watermark's `log_position` when that
watermark's `log_file` equals the file being opened, and the constant 4
otherwise. -/
theorem C6_start_positions (src : SourceModel) (bs : Nat) (c : RunCore) :
    (∀ x rest, opensOf (run_cdc_worker src bs c).trace = x :: rest →
      x.2.2 = c.wm ∧ x.2.1 = (get_watermark c.wm).log_pos) ∧
    (∀ pre x post,
      opensOf (run_cdc_worker src bs c).trace = pre ++ x :: post →
      pre ≠ [] →
      x.2.1 = (if (get_watermark x.2.2).log_file = some x.1
        then (get_watermark x.2.2).log_pos else some 4)) := by
  cases hsf : (get_watermark c.wm).log_file with
  | none =>
    rw [run_cdc_worker_eq_init_none hsf]
    constructor
    · intro x rest h
      cases h
    · intro pre x post h
      exact absurd h (by simp [opensOf, List.filterMap_cons])
  | some sf =>
    by_cases hne : sf = ""
    · subst hne
      rw [run_cdc_worker_eq_init_empty hsf]
      constructor
      · intro x rest h
        cases h
      · intro pre x post h
        exact absurd h (by simp [opensOf, List.filterMap_cons])
    · cases hsi : (get_binlog_files src.binlogRows).findIdx?
          (fun x => decide (x = sf)) with
      | none =>
        rw [run_cdc_worker_eq_gapped_left hsf hne hsi]
        constructor
        · intro x rest h
          cases h
        · intro pre x post h
          exact absurd h (by simp [opensOf])
      | some si =>
        cases hpi : (get_binlog_files src.binlogRows).findIdx?
            (fun x => decide (x = src.stopFile)) with
        | none =>
          rw [run_cdc_worker_eq_gapped_right hsf hne hsi hpi]
          constructor
          · intro x rest h
            cases h
          · intro pre x post h
            exact absurd h (by simp [opensOf])
        | some pi =>
          rw [run_cdc_worker_eq_main hsf hne hsi hpi]
          cases hseg : ((get_binlog_files src.binlogRows).take
              (pi + 1)).drop si with
          | nil =>
            rw [runFilesLoop_nil]
            constructor
            · intro x rest h
              cases h
            · intro pre x post h
              exact absurd h (by simp [opensOf])
          | cons f fs =>
            obtain ⟨tail, htail, hprop⟩ := runFilesLoop_opens_cons src bs
              (get_watermark c.wm).log_pos f fs true c
            constructor
            · intro x rest h
              rw [htail] at h
              injection h with h1 h2
              rw [← h1]
              exact ⟨rfl, rfl⟩
            · intro pre x post h hpre
              rw [htail] at h
              cases pre with
              | nil => exact absurd rfl hpre
              | cons p ps =>
                rw [List.cons_append] at h
                injection h with h1 h2
                exact hprop x (h2 ▸ List.mem_append_right ps
                  (List.mem_cons_self x post))

/-- C6 witness: the two-file run of the C3 source opens
`mysql-bin.000001` at the run-start watermark position 4, then opens
`mysql-bin.000002` at position 50 — the re-read watermark's position,
since that watermark's `log_file` is `mysql-bin.000002`. -/
theorem C6_start_positions_witness :
    ((some (⟨some "mysql-bin.000001", some 4, true⟩ : WatermarkRecord) :
        Option WatermarkRecord) =
        some ⟨some "mysql-bin.000001", some 4, true⟩ ∧
      (some 4 : Option Nat) =
        (get_watermark
          (some ⟨some "mysql-bin.000001", some 4, true⟩)).log_pos) ∧
    ((some 50 : Option Nat) =
      if (get_watermark (some (⟨some "mysql-bin.000002", some 50, true⟩ :
            WatermarkRecord))).log_file = some "mysql-bin.000002"
        then (get_watermark
          (some ⟨some "mysql-bin.000002", some 50, true⟩)).log_pos
        else some 4) := by
  have h := C6_start_positions
    ⟨"mysql-bin.000002", 10, [⟨"mysql-bin.000001"⟩, ⟨"mysql-bin.000002"⟩],
      fun f _ => if f = "mysql-bin.000001" then
        [⟨.write, "mysql-bin.000002", 50, 7,
          [⟨some [("id", .pyInt 1)], none⟩]⟩]
      else []⟩
    100 ⟨[], some ⟨some "mysql-bin.000001", some 4, true⟩, []⟩
  refine ⟨h.1 ("mysql-bin.000001", some 4,
      some ⟨some "mysql-bin.000001", some 4, true⟩)
      [("mysql-bin.000002", some 50,
        some ⟨some "mysql-bin.000002", some 50, true⟩)] (by decide),
    h.2 [("mysql-bin.000001", some 4,
        some ⟨some "mysql-bin.000001", some 4, true⟩)]
      ("mysql-bin.000002", some 50,
        some ⟨some "mysql-bin.000002", some 50, true⟩) [] (by decide)
      (List.cons_ne_nil _ _)⟩

/-! ## C5: backfill event construction and finalization -/

/-- The events handed to `send_batch` over a trace, in order. -/
def sentEvents (tr : List TraceItem) : List CdcEventDict :=
  tr.flatMap fun item =>
    match item with
    | .sendBatch evs _ => evs
    | _ => []

theorem sentEvents_append (t1 t2 : List TraceItem) :
    sentEvents (t1 ++ t2) = sentEvents t1 ++ sentEvents t2 :=
  List.flatMap_append _ _ _

theorem backfillRowsLoop_sent {bs T : Nat} {lf : String} {lp : Nat} :
    ∀ (rows : List RowMap) (batch : List CdcEventDict) (c : RunCore)
      {c' : RunCore} {tr : List TraceItem} {b' : List CdcEventDict},
      backfillRowsLoop bs T lf lp rows batch c = (c', tr, b', none) →
      sentEvents tr ++ b' = batch ++ rows.map (mkBackfillEvent T lf lp) ∧
      c'.wm = c.wm := by
  intro rows
  induction rows with
  | nil =>
    intro batch c c' tr b' heq
    rw [backfillRowsLoop_nil] at heq
    simp only [Prod.mk.injEq] at heq
    obtain ⟨rfl, rfl, rfl, _⟩ := heq
    simp [sentEvents]
  | cons r rs ih =>
    intro batch c c' tr b' heq
    by_cases hfull : bs ≤ (batch ++ [mkBackfillEvent T lf lp r]).length
    · rcases hsb : send_batch c.sink c.oracle
          (batch ++ [mkBackfillEvent T lf lp r]) with ⟨s2, o2, res⟩
      cases res with
      | error e1 =>
        rw [backfillRowsLoop_cons_err hfull hsb] at heq
        simp only [Prod.mk.injEq] at heq
        exact absurd heq.2.2.2 (by simp)
      | ok n =>
        rcases hrec : backfillRowsLoop bs T lf lp rs []
            {c with sink := s2, oracle := o2} with ⟨c2, tr2, b2, e2⟩
        rw [backfillRowsLoop_cons_ok hfull hsb hrec] at heq
        simp only [Prod.mk.injEq] at heq
        obtain ⟨rfl, rfl, rfl, rfl⟩ := heq
        obtain ⟨hsent, hwm⟩ := ih [] {c with sink := s2, oracle := o2} hrec
        constructor
        · rw [show (TraceItem.sendBatch (batch ++ [mkBackfillEvent T lf lp r])
            true :: tr2 : List TraceItem) =
            [TraceItem.sendBatch (batch ++ [mkBackfillEvent T lf lp r]) true]
              ++ tr2 from rfl, sentEvents_append, List.append_assoc, hsent]
          simp [sentEvents]
        · exact hwm
    · rw [backfillRowsLoop_cons_nofull hfull] at heq
      obtain ⟨hsent, hwm⟩ := ih (batch ++ [mkBackfillEvent T lf lp r]) c heq
      refine ⟨?_, hwm⟩
      rw [hsent]
      simp

/-- C5: on a backfill run that raises no error, the trace is a sequence of
successful `send_batch` calls followed by exactly `setWm(F_stop, X_stop)`
and then `markComplete`; the events sent, concatenated in order, are
exactly one `mkBackfillEvent` per scanned row in row order — each with
`event_type = "backfill"`, `timestamp = T`, `log_file = F_stop`,
`log_position = X_stop` — and the final store state is
`mark_backfill_complete` applied after `set_watermark(F_stop, X_stop)` on
the run-start store state. -/
theorem C5_backfill_events_and_finalization (bs T : Nat) (stopF : String)
    (stopP : Nat) (rows : List RowMap) (c : RunCore)
    (hok : (backfill_table bs T stopF stopP rows c).err = none) :
    ∃ tr1,
      (backfill_table bs T stopF stopP rows c).trace =
        tr1 ++ [.setWm stopF stopP, .markComplete] ∧
      (∀ item ∈ tr1, ∃ evs, item = TraceItem.sendBatch evs true) ∧
      sentEvents tr1 = rows.map (mkBackfillEvent T stopF stopP) ∧
      (∀ ev ∈ rows.map (mkBackfillEvent T stopF stopP),
        ev.event_type = some "backfill" ∧
        ev.timestamp = some (.tsDatetime T) ∧
        ev.log_file = some stopF ∧ ev.log_position = some stopP) ∧
      (backfill_table bs T stopF stopP rows c).core.wm =
        some (mark_backfill_complete (set_watermark c.wm stopF stopP).1) := by
  have hfields : ∀ ev ∈ rows.map (mkBackfillEvent T stopF stopP),
      ev.event_type = some "backfill" ∧
      ev.timestamp = some (.tsDatetime T) ∧
      ev.log_file = some stopF ∧ ev.log_position = some stopP := by
    intro ev hmem
    obtain ⟨r, _, rfl⟩ := List.mem_map.mp hmem
    exact ⟨rfl, rfl, rfl, rfl⟩
  rcases hloop : backfillRowsLoop bs T stopF stopP rows [] c
    with ⟨c1, tr, batch, e1⟩
  cases e1 with
  | some e =>
    rw [backfill_table_eq_loop_err hloop] at hok
    cases hok
  | none =>
    obtain ⟨hsent, hwm⟩ := backfillRowsLoop_sent rows [] c hloop
    obtain ⟨hitems, _⟩ := backfillRowsLoop_items rows [] c hloop
    by_cases hbe : batch = []
    · subst hbe
      rw [backfill_table_eq_empty hloop]
      refine ⟨tr, rfl, hitems rfl, ?_, hfields, ?_⟩
      · simpa using hsent
      · rw [hwm]
    · rcases hsb : send_batch c1.sink c1.oracle batch with ⟨s2, o2, res⟩
      cases res with
      | error e =>
        rw [backfill_table_eq_flush_err hloop hbe hsb] at hok
        cases hok
      | ok n =>
        rw [backfill_table_eq_flush_ok hloop hbe hsb]
        refine ⟨tr ++ [.sendBatch batch true], by simp, ?_, ?_, hfields, ?_⟩
        · intro item hmem
          rcases List.mem_append.mp hmem with hmem | hmem
          · exact hitems rfl item hmem
          · simp only [List.mem_singleton] at hmem
            exact ⟨batch, hmem⟩
        · rw [sentEvents_append]
          have : sentEvents [TraceItem.sendBatch batch true] = batch := by
            simp [sentEvents]
          rw [this]
          simpa using hsent
        · rw [hwm]

/-- C5 witness: three rows at batch size 2 produce two successful sends
whose concatenation is one backfill event per row at `(T, F_stop, X_stop)
= (7, mysql-bin.000009, 120)`, then the watermark write and the
completion mark. -/
theorem C5_backfill_events_and_finalization_witness :
    ∃ tr1,
      (backfill_table 2 7 "mysql-bin.000009" 120
        [[("id", .pyInt 1)], [("id", .pyInt 2)], [("id", .pyInt 3)]]
        ⟨[], none, []⟩).trace =
        tr1 ++ [.setWm "mysql-bin.000009" 120, .markComplete] ∧
      (∀ item ∈ tr1, ∃ evs, item = TraceItem.sendBatch evs true) ∧
      sentEvents tr1 =
        ([[("id", .pyInt 1)], [("id", .pyInt 2)], [("id", .pyInt 3)]] :
          List RowMap).map (mkBackfillEvent 7 "mysql-bin.000009" 120) ∧
      (∀ ev ∈ ([[("id", .pyInt 1)], [("id", .pyInt 2)], [("id", .pyInt 3)]] :
          List RowMap).map (mkBackfillEvent 7 "mysql-bin.000009" 120),
        ev.event_type = some "backfill" ∧
        ev.timestamp = some (.tsDatetime 7) ∧
        ev.log_file = some "mysql-bin.000009" ∧ ev.log_position = some 120) ∧
      (backfill_table 2 7 "mysql-bin.000009" 120
        [[("id", .pyInt 1)], [("id", .pyInt 2)], [("id", .pyInt 3)]]
        ⟨[], none, []⟩).core.wm =
        some (mark_backfill_complete
          (set_watermark (none : Option WatermarkRecord)
            "mysql-bin.000009" 120).1) :=
  C5_backfill_events_and_finalization 2 7 "mysql-bin.000009" 120
    [[("id", .pyInt 1)], [("id", .pyInt 2)], [("id", .pyInt 3)]]
    ⟨[], none, []⟩ (by decide)

end MysqlCdc
